import Mathlib

/-! Verification development for the Go source obfuscator.

Shallow embedding of `obfuscator/transform.go` and of the level validation in
`cmd/main.go`.

* The syntax tree (`go/ast`) is embedded as ordinary inductive types; a Go
  pointer that may be nil is an `Option`, a slice is a `List`.  In-place
  mutation of a node through a pointer becomes a function returning the new
  node.
* The random source (`crypto/rand.Reader`) is a finite list of bytes that is
  consumed from the front; reading past its end is the read failure of the Go
  reader.
* The execution of function bodies (for the claims about flattened bodies) is
  a big-step interpreter with block scopes and a step bound.
* The action of the `build` command returns its error together with the
  calls it made, the answers of the environment being parameters.
* A Go `error` value is an `Err`; a run-time panic is a `Fault`.
* Functions of the Go standard library that the source calls but does not
  define (the AES block function, `unicode.IsUpper`) are fields of `Lib`.
-/

namespace Obfuscator

/-! ## Tokens, objects and the syntax tree (package `go/token`, `go/ast`) -/

/-- The tokens of `go/token` that occur in the trees handled here. -/
inductive Token where
  | ILLEGAL | IDENT | INT | FLOAT | CHAR | STRING
  | ADD | SUB | MUL | EQL | LSS | GTR | NEQ
  | ASSIGN | DEFINE | INC | DEC
  | IMPORT | CONST | TYPE | VAR
deriving DecidableEq, Repr

/-- The kinds of `ast.Object` (`ast.ObjKind`). -/
inductive ObjKind where
  | Bad | Pkg | Con | Typ | Var | Fun | Lbl
deriving DecidableEq, Repr

/-- The kind of node an `ast.Object` was declared by (the dynamic type of
`Object.Decl`): a `Field` for parameters, results, receivers and struct
fields, a `ValueSpec` for `var`/`const` declarations, an `AssignStmt` for
`:=`, and so on. -/
inductive DeclSite where
  | Nil | Field | ImportSpec | ValueSpec | TypeSpec | FuncDecl | LabeledStmt | AssignStmt | Scope
deriving DecidableEq, Repr

/-- An `ast.Object`.  `Id` stands for the address of the object: two
identifiers denote the same binding exactly when their objects are equal. -/
structure Object where
  Id : Nat
  Kind : ObjKind
  Name : String
  Decl : DeclSite
deriving DecidableEq, Repr

/-- An `ast.Ident`; `Obj` is `none` for an unresolved identifier. -/
structure Ident where
  Name : String
  Obj : Option Object
deriving DecidableEq, Repr

/-- An `ast.BasicLit`; `Value` is the literal's source text, delimiters
included. -/
structure BasicLit where
  Kind : Token
  Value : String
deriving DecidableEq, Repr

mutual
/-- Expressions (`ast.Expr`). -/
inductive Expr where
  | Ident (x : Ident)
  | BasicLit (x : BasicLit)
  | CallExpr (Fun : Expr) (Args : List Expr)
  | SliceExpr (X : Expr) (Low : Option Expr) (High : Option Expr) (Max : Option Expr)
  | BinaryExpr (X : Expr) (Op : Token) (Y : Expr)
  | SelectorExpr (X : Expr) (Sel : Ident)
  | ParenExpr (X : Expr)
  | StructType (Fields : List Field)
/-- An `ast.Field`: names, type and (for struct fields) the tag literal. -/
inductive Field where
  | mk (Names : List Ident) (Typ : Expr) (Tag : Option BasicLit)
end

/-- The specs of a general declaration (`ast.Spec`). -/
inductive Spec where
  | ImportSpec (Name : Option Ident) (Path : BasicLit)
  | ValueSpec (Names : List Ident) (Typ : Option Expr) (Values : List Expr)
  | TypeSpec (Name : Ident) (Typ : Expr)

/-- An `ast.GenDecl`: an import, constant, type or variable declaration. -/
structure GenDecl where
  Tok : Token
  Specs : List Spec

/-- Statements (`ast.Stmt`).  A `Body` or `Lst` of statements stands for the
`*ast.BlockStmt` the Go node points to. -/
inductive Stmt where
  | DeclStmt (Decl : GenDecl)
  | ExprStmt (X : Expr)
  | IncDecStmt (X : Expr) (Tok : Token)
  | AssignStmt (Lhs : List Expr) (Tok : Token) (Rhs : List Expr)
  | ReturnStmt (Results : List Expr)
  | BlockStmt (Lst : List Stmt)
  | IfStmt (Init : Option Stmt) (Cond : Expr) (Body : List Stmt) (Else : Option Stmt)
  | CaseClause (Lst : List Expr) (Body : List Stmt)
  | SwitchStmt (Init : Option Stmt) (Tag : Option Expr) (Body : List Stmt)
  | ForStmt (Init : Option Stmt) (Cond : Option Expr) (Post : Option Stmt) (Body : List Stmt)

/-- An `ast.FuncType`: parameter and result lists. -/
structure FuncType where
  Params : List Field
  Results : List Field

/-- An `ast.FuncDecl`.  `Body` is `none` for a declaration without a body
(`fn.Body == nil`). -/
structure FuncDecl where
  Recv : List Field
  Name : Ident
  Typ : FuncType
  Body : Option (List Stmt)

/-- Top-level declarations (`ast.Decl`). -/
inductive Decl where
  | GenDecl (d : GenDecl)
  | FuncDecl (d : FuncDecl)

/-- An `ast.File`: the package name and the declaration list. -/
structure File where
  Name : Ident
  Decls : List Decl

/-- Run-time panics. -/
inductive Fault where
  | nilDereference
  | indexOutOfRange
deriving DecidableEq, Repr

/-- Go `error` values. -/
inductive Err where
  | EOF
  | ErrUnexpectedEOF
  | KeySizeError (n : Nat)
  | CorruptInputError (offset : Nat)
  | Wrapped (msg : String) (cause : Err)
  | Other (msg : String)
deriving DecidableEq, Repr

/-- Standard-library functions the source calls but does not define. -/
structure Lib where
  /-- The predicate `unicode.IsUpper` on runes. -/
  isUpper : Char → Bool
  /-- The AES block function: key, 16-byte block, encrypted 16-byte block. -/
  aesEncrypt : List Nat → List Nat → List Nat

/-- The constructor `ast.NewIdent`: an identifier without an object. -/
def NewIdent (name : String) : Ident :=
  { Name := name, Obj := none }

/-! ## Control-flow flattening and dead-code injection -/

/-- The case clause built for the statement with index `i`. -/
def caseClause (i : Nat) (stmt : Stmt) : Stmt :=
  .CaseClause [.BasicLit { Kind := .INT, Value := toString i }]
    ([stmt] ++ [.IncDecStmt (.Ident (NewIdent "state")) .INC])

/-- The loop `for i, stmt := range statements` that appends one case clause
per statement; `i` is the index of the head of the remaining statements. -/
def buildCases : Nat → List Stmt → List Stmt → List Stmt
  | _, [], cases => cases
  | i, stmt :: rest, cases => buildCases (i + 1) rest (cases ++ [caseClause i stmt])

/-- The function `flattenControlFlow`.  Reading `fn.Body.List` of a
declaration without a body dereferences a nil pointer. -/
def flattenControlFlow (fn : FuncDecl) : Except Fault FuncDecl :=
  match fn.Body with
  | none => .error .nilDereference
  | some statements =>
    if statements.length = 0 then
      .ok fn
    else
      .ok { fn with Body := some [
        .AssignStmt [.Ident (NewIdent "state")] .DEFINE [.BasicLit { Kind := .INT, Value := "0" }],
        .ForStmt none
          (some (.BinaryExpr (.Ident (NewIdent "state")) .LSS
            (.BasicLit { Kind := .INT, Value := toString statements.length })))
          none
          [.SwitchStmt none (some (.Ident (NewIdent "state"))) (buildCases 0 statements [])]] }

/-- The statement `fmt.Println("deadcode")` built by `injectDeadCode`. -/
def deadCode : Stmt :=
  .ExprStmt (.CallExpr (.Ident (NewIdent "fmt.Println"))
    [.BasicLit { Kind := .STRING, Value := "\"deadcode\"" }])

/-- The function `injectDeadCode`. -/
def injectDeadCode (fn : FuncDecl) : Except Fault FuncDecl :=
  match fn.Body with
  | none => .error .nilDereference
  | some lst => .ok { fn with Body := some ([deadCode] ++ lst) }

/-! ## The random source and the name generator -/

/-- The bytes the random source will still deliver, in order. -/
abbrev Reader := List Nat

/-- The call `io.ReadFull(rand.Reader, buf)` for a buffer of `n` bytes: the
bytes read (or the error) and the source afterwards. -/
def ReadFull (n : Nat) (r : Reader) : Except Err (List Nat) × Reader :=
  if n = 0 then (.ok [], r)
  else if r.length = 0 then (.error .EOF, r)
  else if r.length < n then (.error .ErrUnexpectedEOF, [])
  else (.ok ((r.take n).map (fun b => b % 256)), r.drop n)

/-- Auxiliary for `bitLen`, by halving. -/
def bitLenAux : Nat → Nat → Nat
  | 0, _ => 0
  | fuel + 1, n => if n = 0 then 0 else 1 + bitLenAux fuel (n / 2)

/-- The method `(*big.Int).BitLen` on a natural number. -/
def bitLen (n : Nat) : Nat := bitLenAux n n

/-- The method `(*big.Int).SetBytes`: the big-endian value of a byte slice. -/
def SetBytes (bs : List Nat) : Nat := bs.foldl (fun acc b => acc * 256 + b) 0

/-- The rejection loop of `crypto/rand.Int`: read `k` bytes, clear the
excess bits of the first one (`bytes[0] &= 1<<b - 1`), accept the value if
it is below `max`.  The first argument bounds the number of rounds; every
round consumes `k` bytes. -/
def randIntLoop (max k b : Nat) : Nat → Reader → Except Err Nat × Reader
  | 0, r => (.error .EOF, r)
  | fuel + 1, r =>
    match ReadFull k r with
    | (.error e, r1) => (.error e, r1)
    | (.ok bytes, r1) =>
      let n := SetBytes (match bytes with
        | [] => []
        | b0 :: rest => (b0 % 2 ^ b) :: rest)
      if n < max then (.ok n, r1) else randIntLoop max k b fuel r1

/-- The call `rand.Int(rand.Reader, big.NewInt(max))` for `max > 0`; an
error result stands for the Go result `(nil, err)`. -/
def randInt (max : Nat) (r : Reader) : Except Err Nat × Reader :=
  let bl := bitLen (max - 1)
  if bl = 0 then (.ok 0, r)
  else
    let k := (bl + 7) / 8
    let b := if bl % 8 = 0 then 8 else bl % 8
    randIntLoop max k b (r.length + 1) r

/-- The constant `chars` of `GenerateCrypticName`. -/
def chars : String := "abcdefghijklmnopqrstuvwxyzABCDEFGHIJKLMNOPQRSTUVWXYZ0123456789_"

/-- The loop `for i := range name` of `GenerateCrypticName`, with the number
of positions still to fill.  The error of `rand.Int` is discarded; on an
error `n` is nil and `n.Int64()` dereferences it. -/
def nameLoop : Nat → List Char → Reader → Except Fault (List Char × Reader)
  | 0, name, r => .ok (name, r)
  | todo + 1, name, r =>
    match randInt chars.length r with
    | (.error _, _) => .error .nilDereference
    | (.ok n, r1) =>
      match chars.data.get? n with
      | none => .error .indexOutOfRange
      | some c => nameLoop todo (name ++ [c]) r1

/-- The function `GenerateCrypticName`. -/
def GenerateCrypticName (r : Reader) : Except Fault (String × Reader) :=
  match nameLoop 16 [] r with
  | .error f => .error f
  | .ok (name, r1) => .ok ("x" ++ String.mk name, r1)

/-- The shape of a generated name: `x` followed by 16 characters of
`chars`. -/
def crypticShape (name : String) : Prop :=
  ∃ tail : List Char, name = "x" ++ String.mk tail ∧ tail.length = 16 ∧ ∀ c ∈ tail, c ∈ chars.data

/-! ## The cipher helper: base64, AES-CFB, `EncryptString` -/

/-- The alphabet of `base64.StdEncoding`. -/
def encodeStd : String := "ABCDEFGHIJKLMNOPQRSTUVWXYZabcdefghijklmnopqrstuvwxyz0123456789+/"

/-- The character of a 6-bit value. -/
def b64Char (n : Nat) : Char := encodeStd.data.getD n 'A'

/-- The 6-bit value of a character of the alphabet. -/
def b64Index (c : Char) : Option Nat :=
  let i := encodeStd.data.indexOf c
  if i < 64 then some i else none

/-- Encoding of a byte list, three bytes to four characters, padded with
`=`. -/
def encodeChars : List Nat → List Char
  | [] => []
  | [a] => [b64Char (a / 4), b64Char (a % 4 * 16), '=', '=']
  | [a, b] => [b64Char (a / 4), b64Char (a % 4 * 16 + b / 16), b64Char (b % 16 * 4), '=']
  | a :: b :: c :: rest =>
    b64Char (a / 4) :: b64Char (a % 4 * 16 + b / 16) :: b64Char (b % 16 * 4 + c / 64)
      :: b64Char (c % 64) :: encodeChars rest

/-- The method `base64.StdEncoding.EncodeToString`. -/
def EncodeToString (bs : List Nat) : String := String.mk (encodeChars bs)

/-- Decoding of a character list; `off` is the offset of the head, reported
in the error. -/
def decodeChars : Nat → List Char → Except Err (List Nat)
  | _, [] => .ok []
  | off, [c0, c1, '=', '='] =>
    match b64Index c0, b64Index c1 with
    | some s0, some s1 => .ok [s0 * 4 + s1 / 16]
    | _, _ => .error (.CorruptInputError off)
  | off, c0 :: c1 :: c2 :: c3 :: rest =>
    if c3 = '=' ∧ rest = [] then
      match b64Index c0, b64Index c1, b64Index c2 with
      | some s0, some s1, some s2 => .ok [s0 * 4 + s1 / 16, s1 % 16 * 16 + s2 / 4]
      | _, _, _ => .error (.CorruptInputError off)
    else
      match b64Index c0, b64Index c1, b64Index c2, b64Index c3 with
      | some s0, some s1, some s2, some s3 =>
        match decodeChars (off + 4) rest with
        | .ok bs => .ok ([s0 * 4 + s1 / 16, s1 % 16 * 16 + s2 / 4, s2 % 4 * 64 + s3] ++ bs)
        | .error e => .error e
      | _, _, _, _ => .error (.CorruptInputError off)
  | off, _ => .error (.CorruptInputError off)

/-- The method `base64.StdEncoding.DecodeString`, on text without line
breaks. -/
def DecodeString (s : String) : Except Err (List Nat) := decodeChars 0 s.data

/-- The conversion `[]byte(s)`: the UTF-8 bytes of a string. -/
def bytesOf (s : String) : List Nat :=
  s.data.flatMap (fun c => (String.utf8EncodeChar c).map UInt8.toNat)

/-- The constant `aes.BlockSize`. -/
def BlockSize : Nat := 16

/-- The function `aes.NewCipher`: the block function for a key of 16, 24 or
32 bytes.  Its output is read as `BlockSize` bytes. -/
def NewCipher (L : Lib) (key : List Nat) : Except Err (List Nat → List Nat) :=
  if key.length = 16 ∨ key.length = 24 ∨ key.length = 32 then
    .ok (fun blk => (List.range BlockSize).map (fun i => (L.aesEncrypt key blk).getD i 0 % 256))
  else
    .error (.KeySizeError key.length)

/-- The method `XORKeyStream` of the CFB stream of `crypto/cipher`, one
round per block of the source: encrypt the register `next`, XOR the block
with the result, and load the ciphertext block (the output when encrypting,
the input when decrypting) into the register.  The first argument bounds
the number of blocks. -/
def XORKeyStream (block : List Nat → List Nat) (decrypt : Bool) :
    Nat → List Nat → List Nat → List Nat
  | 0, _, _ => []
  | fuel + 1, next, src =>
    if src = [] then []
    else
      let out := block next
      let chunk := src.take BlockSize
      let dst := List.zipWith (fun x y => x ^^^ y) chunk out
      let fed := if decrypt then chunk else dst
      dst ++ XORKeyStream block decrypt fuel (fed ++ next.drop fed.length) (src.drop BlockSize)

/-- The function `EncryptString`: the result and the random source
afterwards. -/
def EncryptString (L : Lib) (plaintext : String) (key : List Nat) (r : Reader) :
    Except Err String × Reader :=
  match NewCipher L key with
  | .error e => (.error e, r)
  | .ok block =>
    let plaintextBytes := bytesOf plaintext
    match ReadFull BlockSize r with
    | (.error e, r1) => (.error e, r1)
    | (.ok iv, r1) =>
      let ciphertext := iv ++ XORKeyStream block false plaintextBytes.length iv plaintextBytes
      (.ok (EncodeToString ciphertext), r1)

/-- The decrypt routine as the specification describes it (section 4.2):
decode, split off the first 16 bytes as IV, derive the keystream from key and
IV, XOR it with the remainder.  This is the routine of the specification,
not an embedding of source code: what the source appends to a file for this
purpose are the trees `decryptFunc` and `decryptAESFunc` below, and nothing
here says that they compute this function. -/
def specDecrypt (L : Lib) (s : String) (key : List Nat) : Except Err (List Nat) :=
  match DecodeString s with
  | .error e => .error e
  | .ok data =>
    match NewCipher L key with
    | .error e => .error e
    | .ok block =>
      let iv := data.take 16
      let rest := data.drop 16
      .ok (XORKeyStream block true rest.length iv rest)

/-! ## Tree traversal (`ast.Inspect`) -/

/-- A computation that consumes the random source and may panic. -/
abbrev Visit (α : Type) : Type := StateT Reader (Except Fault) α

/-- The callback handed to `ast.Inspect`, split by the dynamic type of the
node it acts on: what it does to an `*ast.Ident` and to an `*ast.BasicLit`.
Both callbacks of `TransformSource` return `true`, so every node is
visited; they leave all other nodes alone. -/
structure Visitor where
  ident : Ident → Visit Ident
  lit : BasicLit → Visit BasicLit

/-- Visit a list of identifiers in order. -/
def walkIdents (v : Visitor) : List Ident → Visit (List Ident)
  | [] => pure []
  | x :: xs => do
    let x1 ← v.ident x
    let xs1 ← walkIdents v xs
    pure (x1 :: xs1)

/-- Visit an identifier that may be absent. -/
def walkOptIdent (v : Visitor) : Option Ident → Visit (Option Ident)
  | none => pure none
  | some x => do
    let x1 ← v.ident x
    pure (some x1)

/-- Visit a literal that may be absent. -/
def walkOptLit (v : Visitor) : Option BasicLit → Visit (Option BasicLit)
  | none => pure none
  | some x => do
    let x1 ← v.lit x
    pure (some x1)

mutual
/-- The traversal `ast.Walk` on an expression, children in the order of
`go/ast/walk.go`. -/
def walkExpr (v : Visitor) : Expr → Visit Expr
  | .Ident x => do
    let x1 ← v.ident x
    pure (.Ident x1)
  | .BasicLit x => do
    let x1 ← v.lit x
    pure (.BasicLit x1)
  | .CallExpr f args => do
    let f1 ← walkExpr v f
    let args1 ← walkExprs v args
    pure (.CallExpr f1 args1)
  | .SliceExpr x lo hi mx => do
    let x1 ← walkExpr v x
    let lo1 ← walkOptExpr v lo
    let hi1 ← walkOptExpr v hi
    let mx1 ← walkOptExpr v mx
    pure (.SliceExpr x1 lo1 hi1 mx1)
  | .BinaryExpr x op y => do
    let x1 ← walkExpr v x
    let y1 ← walkExpr v y
    pure (.BinaryExpr x1 op y1)
  | .SelectorExpr x sel => do
    let x1 ← walkExpr v x
    let sel1 ← v.ident sel
    pure (.SelectorExpr x1 sel1)
  | .ParenExpr x => do
    let x1 ← walkExpr v x
    pure (.ParenExpr x1)
  | .StructType fields => do
    let fields1 ← walkFields v fields
    pure (.StructType fields1)
/-- The traversal on a list of expressions. -/
def walkExprs (v : Visitor) : List Expr → Visit (List Expr)
  | [] => pure []
  | e :: es => do
    let e1 ← walkExpr v e
    let es1 ← walkExprs v es
    pure (e1 :: es1)
/-- The traversal on an expression that may be absent. -/
def walkOptExpr (v : Visitor) : Option Expr → Visit (Option Expr)
  | none => pure none
  | some e => do
    let e1 ← walkExpr v e
    pure (some e1)
/-- The traversal on a field: names, type, tag. -/
def walkField (v : Visitor) : Field → Visit Field
  | .mk names typ tag => do
    let names1 ← walkIdents v names
    let typ1 ← walkExpr v typ
    let tag1 ← walkOptLit v tag
    pure (.mk names1 typ1 tag1)
/-- The traversal on a field list. -/
def walkFields (v : Visitor) : List Field → Visit (List Field)
  | [] => pure []
  | f :: fs => do
    let f1 ← walkField v f
    let fs1 ← walkFields v fs
    pure (f1 :: fs1)
end

/-- The traversal on a spec. -/
def walkSpec (v : Visitor) : Spec → Visit Spec
  | .ImportSpec name path => do
    let name1 ← walkOptIdent v name
    let path1 ← v.lit path
    pure (.ImportSpec name1 path1)
  | .ValueSpec names typ values => do
    let names1 ← walkIdents v names
    let typ1 ← walkOptExpr v typ
    let values1 ← walkExprs v values
    pure (.ValueSpec names1 typ1 values1)
  | .TypeSpec name typ => do
    let name1 ← v.ident name
    let typ1 ← walkExpr v typ
    pure (.TypeSpec name1 typ1)

/-- The traversal on a list of specs. -/
def walkSpecs (v : Visitor) : List Spec → Visit (List Spec)
  | [] => pure []
  | x :: xs => do
    let x1 ← walkSpec v x
    let xs1 ← walkSpecs v xs
    pure (x1 :: xs1)

/-- The traversal on a general declaration. -/
def walkGenDecl (v : Visitor) (d : GenDecl) : Visit GenDecl := do
  let specs1 ← walkSpecs v d.Specs
  pure { d with Specs := specs1 }

mutual
/-- The traversal on a statement. -/
def walkStmt (v : Visitor) : Stmt → Visit Stmt
  | .DeclStmt d => do
    let d1 ← walkGenDecl v d
    pure (.DeclStmt d1)
  | .ExprStmt x => do
    let x1 ← walkExpr v x
    pure (.ExprStmt x1)
  | .IncDecStmt x tok => do
    let x1 ← walkExpr v x
    pure (.IncDecStmt x1 tok)
  | .AssignStmt lhs tok rhs => do
    let lhs1 ← walkExprs v lhs
    let rhs1 ← walkExprs v rhs
    pure (.AssignStmt lhs1 tok rhs1)
  | .ReturnStmt results => do
    let results1 ← walkExprs v results
    pure (.ReturnStmt results1)
  | .BlockStmt lst => do
    let lst1 ← walkStmts v lst
    pure (.BlockStmt lst1)
  | .IfStmt init cond body els => do
    let init1 ← walkOptStmt v init
    let cond1 ← walkExpr v cond
    let body1 ← walkStmts v body
    let els1 ← walkOptStmt v els
    pure (.IfStmt init1 cond1 body1 els1)
  | .CaseClause lst body => do
    let lst1 ← walkExprs v lst
    let body1 ← walkStmts v body
    pure (.CaseClause lst1 body1)
  | .SwitchStmt init tag body => do
    let init1 ← walkOptStmt v init
    let tag1 ← walkOptExpr v tag
    let body1 ← walkStmts v body
    pure (.SwitchStmt init1 tag1 body1)
  | .ForStmt init cond post body => do
    let init1 ← walkOptStmt v init
    let cond1 ← walkOptExpr v cond
    let post1 ← walkOptStmt v post
    let body1 ← walkStmts v body
    pure (.ForStmt init1 cond1 post1 body1)
/-- The traversal on a statement list. -/
def walkStmts (v : Visitor) : List Stmt → Visit (List Stmt)
  | [] => pure []
  | x :: xs => do
    let x1 ← walkStmt v x
    let xs1 ← walkStmts v xs
    pure (x1 :: xs1)
/-- The traversal on a statement that may be absent. -/
def walkOptStmt (v : Visitor) : Option Stmt → Visit (Option Stmt)
  | none => pure none
  | some x => do
    let x1 ← walkStmt v x
    pure (some x1)
end

/-- The traversal on a function body that may be absent. -/
def walkOptBody (v : Visitor) : Option (List Stmt) → Visit (Option (List Stmt))
  | none => pure none
  | some lst => do
    let lst1 ← walkStmts v lst
    pure (some lst1)

/-- The traversal on a function declaration: receiver, name, parameters,
results, body. -/
def walkFuncDecl (v : Visitor) (d : FuncDecl) : Visit FuncDecl := do
  let recv1 ← walkFields v d.Recv
  let name1 ← v.ident d.Name
  let params1 ← walkFields v d.Typ.Params
  let results1 ← walkFields v d.Typ.Results
  let body1 ← walkOptBody v d.Body
  pure { Recv := recv1, Name := name1, Typ := { Params := params1, Results := results1 }, Body := body1 }

/-- The traversal on a declaration. -/
def walkDecl (v : Visitor) : Decl → Visit Decl
  | .GenDecl d => do
    let d1 ← walkGenDecl v d
    pure (.GenDecl d1)
  | .FuncDecl d => do
    let d1 ← walkFuncDecl v d
    pure (.FuncDecl d1)

/-- The traversal on a declaration list. -/
def walkDecls (v : Visitor) : List Decl → Visit (List Decl)
  | [] => pure []
  | x :: xs => do
    let x1 ← walkDecl v x
    let xs1 ← walkDecls v xs
    pure (x1 :: xs1)

/-- The call `ast.Inspect(file, f)`: the package name, then the
declarations. -/
def Inspect (v : Visitor) (file : File) : Visit File := do
  let name1 ← v.ident file.Name
  let decls1 ← walkDecls v file.Decls
  pure { Name := name1, Decls := decls1 }

/-! ## The transforms of `TransformSource` -/

/-- The method `(*ast.Ident).IsExported`: the first rune of the name is an
upper-case letter (the first rune of the empty name is `utf8.RuneError`). -/
def IsExported (L : Lib) (ident : Ident) : Bool :=
  L.isUpper (ident.Name.data.headD (Char.ofNat 0xFFFD))

/-- The condition `!ident.IsExported() && ident.Obj != nil &&
ident.Obj.Kind == ast.Var` of step 1. -/
def renameTarget (L : Lib) (ident : Ident) : Bool :=
  !IsExported L ident &&
    match ident.Obj with
    | none => false
    | some obj => decide (obj.Kind = ObjKind.Var)

/-- The callback of step 1 on an identifier. -/
def renameIdent (L : Lib) (ident : Ident) : Visit Ident := fun r =>
  if renameTarget L ident then
    match GenerateCrypticName r with
    | .error f => .error f
    | .ok (name, r1) => .ok ({ ident with Name := name }, r1)
  else
    .ok (ident, r)

/-- The callback of step 1. -/
def renameVisitor (L : Lib) : Visitor :=
  { ident := renameIdent L, lit := fun x => pure x }

/-- The call `strings.Trim(s, cutset)` for a cutset of one character. -/
def Trim (s : String) (cut : Char) : String :=
  String.mk (((s.data.dropWhile (fun c => c == cut)).reverse.dropWhile (fun c => c == cut)).reverse)

/-- The callback of step 2 on a literal.  When `EncryptString` fails the
literal is left as it is and the traversal goes on. -/
def encryptLit (L : Lib) (key : List Nat) (lit : BasicLit) : Visit BasicLit := fun r =>
  if lit.Kind = Token.STRING then
    let plain := Trim lit.Value '"'
    match EncryptString L plain key r with
    | (.ok encrypted, r1) =>
      .ok ({ lit with Value := "decryptString(\"" ++ encrypted ++ "\")" }, r1)
    | (.error _, r1) => .ok (lit, r1)
  else
    .ok (lit, r)

/-- The callback of step 2. -/
def encryptVisitor (L : Lib) (key : List Nat) : Visitor :=
  { ident := fun x => pure x, lit := encryptLit L key }

/-- The synthesized declaration `decryptFunc`. -/
def decryptFunc (key : List Nat) : FuncDecl :=
  { Recv := []
    Name := NewIdent "decryptString"
    Typ :=
      { Params := [.mk [NewIdent "s"] (.Ident (NewIdent "string")) none]
        Results := [.mk [] (.Ident (NewIdent "string")) none] }
    Body := some [
      .ReturnStmt [
        .CallExpr (.Ident (NewIdent "decryptAES")) [
          .CallExpr (.Ident (NewIdent "base64.StdEncoding.DecodeString")) [.Ident (NewIdent "s")],
          .BasicLit { Kind := .STRING, Value := "\"" ++ EncodeToString key ++ "\"" }]]] }

/-- The synthesized declaration `decryptAESFunc`. -/
def decryptAESFunc : FuncDecl :=
  { Recv := []
    Name := NewIdent "decryptAES"
    Typ :=
      { Params := [.mk [NewIdent "data"] (.Ident (NewIdent "[]byte")) none,
                   .mk [NewIdent "keyStr"] (.Ident (NewIdent "string")) none]
        Results := [.mk [] (.Ident (NewIdent "string")) none] }
    Body := some [
      .AssignStmt [.Ident (NewIdent "key")] .DEFINE
        [.CallExpr (.Ident (NewIdent "base64.StdEncoding.DecodeString")) [.Ident (NewIdent "keyStr")]],
      .AssignStmt [.Ident (NewIdent "block")] .DEFINE
        [.CallExpr (.Ident (NewIdent "aes.NewCipher")) [.Ident (NewIdent "key")]],
      .AssignStmt [.Ident (NewIdent "iv")] .DEFINE
        [.SliceExpr (.Ident (NewIdent "data")) (some (.BasicLit { Kind := .INT, Value := "0" }))
          (some (.BasicLit { Kind := .INT, Value := "16" })) none],
      .AssignStmt [.Ident (NewIdent "plaintext")] .DEFINE
        [.CallExpr (.Ident (NewIdent "make")) [.Ident (NewIdent "[]byte"),
          .BinaryExpr (.Ident (NewIdent "len")) .SUB (.BasicLit { Kind := .INT, Value := "16" })]],
      .ExprStmt (.CallExpr
        (.SelectorExpr (.Ident (NewIdent "cipher.NewCFBDecrypter")) (NewIdent "XORKeyStream"))
        [.Ident (NewIdent "block"), .Ident (NewIdent "iv"), .Ident (NewIdent "plaintext"),
          .SliceExpr (.Ident (NewIdent "data")) (some (.BasicLit { Kind := .INT, Value := "16" }))
            none none]),
      .ReturnStmt [.Ident (NewIdent "string(plaintext)")]] }

/-- The four transforms. -/
inductive Transform where
  | renaming | literalEncryption | flattening | deadCode
deriving DecidableEq, Repr

/-- The guards of the four steps of `TransformSource`: `level != "none"`,
`level == "medium" || level == "heavy"`, and `level == "heavy"` twice. -/
def active : Transform → String → Bool
  | .renaming, level => level != "none"
  | .literalEncryption, level => level == "medium" || level == "heavy"
  | .flattening, level => level == "heavy"
  | .deadCode, level => level == "heavy"

/-- The loop of step 3 or 4 over `file.Decls`: `g` is applied to every
function declaration; a panic of `g` ends the loop. -/
def forFuncDecls (g : FuncDecl → Except Fault FuncDecl) : List Decl → Except Fault (List Decl)
  | [] => .ok []
  | .GenDecl d :: rest =>
    match forFuncDecls g rest with
    | .error f => .error f
    | .ok rest1 => .ok (.GenDecl d :: rest1)
  | .FuncDecl fn :: rest =>
    match g fn with
    | .error f => .error f
    | .ok fn1 =>
      match forFuncDecls g rest with
      | .error f => .error f
      | .ok rest1 => .ok (.FuncDecl fn1 :: rest1)

/-- A step that does not read the random source, as a `Visit`. -/
def liftFault {α : Type} (x : Except Fault α) : Visit α := fun r =>
  match x with
  | .error f => .error f
  | .ok a => .ok (a, r)

/-- Step 1 of the callback of `filepath.Walk`. -/
def stepRename (L : Lib) (level : String) (file : File) : Visit File :=
  if active .renaming level then Inspect (renameVisitor L) file else pure file

/-- Step 2: encrypt the string literals, then append the two synthesized
declarations. -/
def stepEncrypt (L : Lib) (key : List Nat) (level : String) (file : File) : Visit File :=
  if active .literalEncryption level then do
    let file1 ← Inspect (encryptVisitor L key) file
    let file2 : File := { file1 with Decls := file1.Decls ++ [Decl.FuncDecl (decryptFunc key)] }
    pure { file2 with Decls := file2.Decls ++ [Decl.FuncDecl decryptAESFunc] }
  else pure file

/-- Step 3. -/
def stepFlatten (level : String) (file : File) : Except Fault File :=
  if active .flattening level then
    match forFuncDecls flattenControlFlow file.Decls with
    | .error f => .error f
    | .ok decls => .ok { file with Decls := decls }
  else .ok file

/-- Step 4. -/
def stepDeadCode (level : String) (file : File) : Except Fault File :=
  if active .deadCode level then
    match forFuncDecls injectDeadCode file.Decls with
    | .error f => .error f
    | .ok decls => .ok { file with Decls := decls }
  else .ok file

/-- The body of the callback of `filepath.Walk` between parsing and
printing: the tree handed to `printer.Fprint`. -/
def transformFile (L : Lib) (key : List Nat) (level : String) (file : File) : Visit File := do
  let file1 ← stepRename L level file
  let file2 ← stepEncrypt L key level file1
  let file3 ← liftFault (stepFlatten level file2)
  liftFault (stepDeadCode level file3)

/-! ## The directory walk of `TransformSource` -/

/-- The function `filepath.Ext`, scanning the path from its end; the
second argument collects the characters already passed. -/
def extAux : List Char → List Char → String
  | [], _ => ""
  | c :: rest, acc =>
    if c = '/' then ""
    else if c = '.' then String.mk (c :: acc)
    else extAux rest (c :: acc)

/-- The function `filepath.Ext`. -/
def Ext (path : String) : String := extAux path.data.reverse []

/-- What the environment answers for one path met by `filepath.Walk`: the
error handed to the callback, whether the path is a directory, the result of
`parser.ParseFile`, and the errors of `os.Create` and `printer.Fprint`. -/
structure WalkEntry where
  path : String
  err : Option Err
  IsDir : Bool
  parsed : Except Err File
  createErr : Option Err
  printErr : Option Err

/-- The callback of `filepath.Walk`: the error it returns and the tree it
printed to the path, if any. -/
def walkFn (L : Lib) (key : List Nat) (level : String) (e : WalkEntry) :
    Visit (Option Err × Option (String × File)) :=
  match e.err with
  | some err => pure (some err, none)
  | none =>
    if e.IsDir || Ext e.path != ".go" then pure (none, none)
    else
      match e.parsed with
      | .error err => pure (some (.Wrapped ("parsing " ++ e.path) err), none)
      | .ok file => do
        let file1 ← transformFile L key level file
        match e.createErr with
        | some err => pure (some (.Wrapped ("creating " ++ e.path) err), none)
        | none =>
          match e.printErr with
          | some err => pure (some (.Wrapped ("writing " ++ e.path) err), none)
          | none => pure (none, some (e.path, file1))

/-- The function `filepath.Walk` over the entries of the directory: it stops
at the first error the callback returns.  The result is that error and the
files written so far. -/
def Walk (L : Lib) (key : List Nat) (level : String) :
    List WalkEntry → Visit (Option Err × List (String × File))
  | [] => pure (none, [])
  | e :: rest => do
    let (err, out) ← walkFn L key level e
    match err with
    | some err1 => pure (some err1, out.toList)
    | none =>
      let (err2, outs) ← Walk L key level rest
      pure (err2, out.toList ++ outs)

/-- The function `TransformSource` on the entries of `dir`: the returned
error (`none` for nil) and the files written. -/
def TransformSource (L : Lib) (dir : List WalkEntry) (level : String) :
    Visit (Option Err × List (String × File)) := fun r =>
  match ReadFull 16 r with
  | (.error err, r1) => .ok ((some (.Wrapped "generating AES key" err), []), r1)
  | (.ok key, r1) => Walk L key level dir r1

/-! ## The leaves of a tree, in traversal order -/

/-- An identifier or literal node. -/
inductive Leaf where
  | ident (x : Ident)
  | lit (x : BasicLit)
deriving DecidableEq, Repr

mutual
/-- The identifier and literal nodes of an expression, in the order in which
`ast.Inspect` meets them. -/
def leavesExpr : Expr → List Leaf
  | .Ident x => [.ident x]
  | .BasicLit x => [.lit x]
  | .CallExpr f args => leavesExpr f ++ leavesExprs args
  | .SliceExpr x lo hi mx => leavesExpr x ++ (leavesOptExpr lo ++ (leavesOptExpr hi ++ leavesOptExpr mx))
  | .BinaryExpr x _ y => leavesExpr x ++ leavesExpr y
  | .SelectorExpr x sel => leavesExpr x ++ [.ident sel]
  | .ParenExpr x => leavesExpr x
  | .StructType fields => leavesFields fields
/-- Leaves of an expression list. -/
def leavesExprs : List Expr → List Leaf
  | [] => []
  | e :: es => leavesExpr e ++ leavesExprs es
/-- Leaves of an optional expression. -/
def leavesOptExpr : Option Expr → List Leaf
  | none => []
  | some e => leavesExpr e
/-- Leaves of a field. -/
def leavesField : Field → List Leaf
  | .mk names typ tag => names.map Leaf.ident ++ (leavesExpr typ ++ tag.toList.map Leaf.lit)
/-- Leaves of a field list. -/
def leavesFields : List Field → List Leaf
  | [] => []
  | f :: fs => leavesField f ++ leavesFields fs
end

/-- Leaves of a spec. -/
def leavesSpec : Spec → List Leaf
  | .ImportSpec name path => name.toList.map Leaf.ident ++ [.lit path]
  | .ValueSpec names typ values => names.map Leaf.ident ++ (leavesOptExpr typ ++ leavesExprs values)
  | .TypeSpec name typ => [.ident name] ++ leavesExpr typ

/-- Leaves of a spec list. -/
def leavesSpecs : List Spec → List Leaf
  | [] => []
  | x :: xs => leavesSpec x ++ leavesSpecs xs

mutual
/-- Leaves of a statement. -/
def leavesStmt : Stmt → List Leaf
  | .DeclStmt d => leavesSpecs d.Specs
  | .ExprStmt x => leavesExpr x
  | .IncDecStmt x _ => leavesExpr x
  | .AssignStmt lhs _ rhs => leavesExprs lhs ++ leavesExprs rhs
  | .ReturnStmt results => leavesExprs results
  | .BlockStmt lst => leavesStmts lst
  | .IfStmt init cond body els =>
    leavesOptStmt init ++ (leavesExpr cond ++ (leavesStmts body ++ leavesOptStmt els))
  | .CaseClause lst body => leavesExprs lst ++ leavesStmts body
  | .SwitchStmt init tag body => leavesOptStmt init ++ (leavesOptExpr tag ++ leavesStmts body)
  | .ForStmt init cond post body =>
    leavesOptStmt init ++ (leavesOptExpr cond ++ (leavesOptStmt post ++ leavesStmts body))
/-- Leaves of a statement list. -/
def leavesStmts : List Stmt → List Leaf
  | [] => []
  | x :: xs => leavesStmt x ++ leavesStmts xs
/-- Leaves of an optional statement. -/
def leavesOptStmt : Option Stmt → List Leaf
  | none => []
  | some x => leavesStmt x
end

/-- Leaves of a function declaration. -/
def leavesFuncDecl (d : FuncDecl) : List Leaf :=
  leavesFields d.Recv ++ ([.ident d.Name] ++ (leavesFields d.Typ.Params ++
    (leavesFields d.Typ.Results ++ (match d.Body with
      | none => []
      | some lst => leavesStmts lst))))

/-- Leaves of a declaration. -/
def leavesDecl : Decl → List Leaf
  | .GenDecl d => leavesSpecs d.Specs
  | .FuncDecl d => leavesFuncDecl d

/-- Leaves of a declaration list. -/
def leavesDecls : List Decl → List Leaf
  | [] => []
  | x :: xs => leavesDecl x ++ leavesDecls xs

/-- The identifier and literal nodes of a file, in the order in which
`ast.Inspect` meets them. -/
def leavesFile (file : File) : List Leaf :=
  [.ident file.Name] ++ leavesDecls file.Decls

/-- The identifiers among a list of leaves. -/
def identsOfLeaves : List Leaf → List Ident
  | [] => []
  | .ident x :: rest => x :: identsOfLeaves rest
  | .lit _ :: rest => identsOfLeaves rest

/-- The literals among a list of leaves. -/
def litsOfLeaves : List Leaf → List BasicLit
  | [] => []
  | .ident _ :: rest => litsOfLeaves rest
  | .lit x :: rest => x :: litsOfLeaves rest

/-- All identifier nodes of a file, in traversal order. -/
def identsOf (file : File) : List Ident := identsOfLeaves (leavesFile file)

/-- All literal nodes of a file, in traversal order. -/
def litsOf (file : File) : List BasicLit := litsOfLeaves (leavesFile file)

/-- The callbacks applied to a list of leaves in order. -/
def visitLeaves (v : Visitor) : List Leaf → Visit (List Leaf)
  | [] => pure []
  | .ident x :: rest => do
    let x1 ← v.ident x
    let rest1 ← visitLeaves v rest
    pure (.ident x1 :: rest1)
  | .lit x :: rest => do
    let x1 ← v.lit x
    let rest1 ← visitLeaves v rest
    pure (.lit x1 :: rest1)

/-! ## A reference semantics for function bodies -/

/-- Run-time values. -/
inductive Value where
  | int (n : Int)
  | bool (b : Bool)
  | str (s : String)
deriving DecidableEq, Repr

/-- The variables declared in one block. -/
abbrev Scope := List (String × Value)

/-- The blocks enclosing the point of execution, innermost first. -/
abbrev Env := List Scope

/-- The value of a variable: the innermost declaration wins. -/
def lookupVar : Env → String → Option Value
  | [], _ => none
  | sc :: rest, x =>
    match sc.lookup x with
    | some v => some v
    | none => lookupVar rest x

/-- Overwrite the first binding of `x` in a scope. -/
def assignScope : Scope → String → Value → Option Scope
  | [], _, _ => none
  | (y, w) :: rest, x, v =>
    if y = x then some ((y, v) :: rest)
    else
      match assignScope rest x v with
      | some rest1 => some ((y, w) :: rest1)
      | none => none

/-- Assignment to the innermost declaration of `x`; `none` if there is
none. -/
def assignVar : Env → String → Value → Option Env
  | [], _, _ => none
  | sc :: rest, x, v =>
    match assignScope sc x v with
    | some sc1 => some (sc1 :: rest)
    | none =>
      match assignVar rest x v with
      | some rest1 => some (sc :: rest1)
      | none => none

/-- Declaration of `x` in the innermost block. -/
def declareVar : Env → String → Value → Env
  | [], x, v => [[(x, v)]]
  | sc :: rest, x, v => ((x, v) :: sc) :: rest

/-- An observable action: a call of a named function with its argument
values. -/
structure Event where
  callee : String
  args : List Value
deriving DecidableEq, Repr

/-- How the execution of a statement ends: it falls through, it returns
from the function, or the program is rejected (a name that is not in scope,
an ill-formed statement). -/
inductive Outcome where
  | normal
  | returned (vals : List Value)
  | failed
deriving DecidableEq, Repr

/-- The result of an execution: outcome, variables, and the actions
performed so far. -/
abbrev Result := Outcome × Env × List Event

/-- The digits of a decimal literal, most significant first, onto the value
read so far. -/
def parseDigits : List Char → Nat → Option Nat
  | [], acc => some acc
  | c :: cs, acc =>
    if '0' ≤ c ∧ c ≤ '9' then parseDigits cs (acc * 10 + (c.toNat - 48)) else none

/-- The value of a decimal integer literal. -/
def parseInt (s : String) : Option Int :=
  match s.data with
  | [] => none
  | cs => (parseDigits cs 0).map Int.ofNat

/-- The value of an expression without calls. -/
def evalExpr (env : Env) : Expr → Option Value
  | .Ident x => lookupVar env x.Name
  | .BasicLit x =>
    match x.Kind with
    | .INT => (parseInt x.Value).map Value.int
    | .STRING => some (.str x.Value)
    | _ => none
  | .BinaryExpr x op y =>
    match evalExpr env x, evalExpr env y with
    | some (.int a), some (.int b) =>
      match op with
      | .ADD => some (.int (a + b))
      | .SUB => some (.int (a - b))
      | .MUL => some (.int (a * b))
      | .LSS => some (.bool (decide (a < b)))
      | .GTR => some (.bool (decide (a > b)))
      | .EQL => some (.bool (decide (a = b)))
      | .NEQ => some (.bool (decide (a ≠ b)))
      | _ => none
    | _, _ => none
  | .ParenExpr x => evalExpr env x
  | _ => none

/-- The values of a list of expressions, left to right. -/
def evalExprs (env : Env) : List Expr → Option (List Value)
  | [] => some []
  | e :: es =>
    match evalExpr env e, evalExprs env es with
    | some v, some vs => some (v :: vs)
    | _, _ => none

/-- The body of the first case clause one of whose expressions equals the
tag; `some none` if no clause matches, `none` if the switch is ill-formed. -/
def matchClause (env : Env) (tag : Value) : List Stmt → Option (Option (List Stmt))
  | [] => some none
  | .CaseClause lst body :: rest =>
    match evalExprs env lst with
    | none => none
    | some vs => if tag ∈ vs then some (some body) else matchClause env tag rest
  | _ :: _ => none

/-- The body of the default clause, if there is one. -/
def defaultClause : List Stmt → Option (List Stmt)
  | [] => none
  | .CaseClause [] body :: _ => some body
  | _ :: rest => defaultClause rest

/-- Leave the innermost block. -/
def leaveBlock : Result → Result
  | (o, env, tr) => (o, env.tail, tr)

mutual
/-- Execution of a statement.  The first argument bounds the depth of the
execution; `none` means that the bound was reached. -/
def execStmt : Nat → Stmt → Env → List Event → Option Result
  | 0, _, _, _ => none
  | fuel + 1, s, env, tr =>
    match s with
    | .ExprStmt (.CallExpr (.Ident f) args) =>
      match evalExprs env args with
      | some vs => some (.normal, env, tr ++ [{ callee := f.Name, args := vs }])
      | none => some (.failed, env, tr)
    | .AssignStmt [.Ident x] tok [e] =>
      match evalExpr env e with
      | none => some (.failed, env, tr)
      | some v =>
        if tok = Token.DEFINE then some (.normal, declareVar env x.Name v, tr)
        else if tok = Token.ASSIGN then
          match assignVar env x.Name v with
          | some env1 => some (.normal, env1, tr)
          | none => some (.failed, env, tr)
        else some (.failed, env, tr)
    | .IncDecStmt (.Ident x) tok =>
      match lookupVar env x.Name with
      | some (.int n) =>
        match assignVar env x.Name (.int (if tok = Token.INC then n + 1 else n - 1)) with
        | some env1 => some (.normal, env1, tr)
        | none => some (.failed, env, tr)
      | _ => some (.failed, env, tr)
    | .ReturnStmt results =>
      match evalExprs env results with
      | some vs => some (.returned vs, env, tr)
      | none => some (.failed, env, tr)
    | .BlockStmt lst => (execStmts fuel lst ([] :: env) tr).map leaveBlock
    | .IfStmt init cond body els =>
      match execOptStmt fuel init ([] :: env) tr with
      | some (.normal, env1, tr1) =>
        match evalExpr env1 cond with
        | some (.bool true) =>
          (execStmts fuel body ([] :: env1) tr1).map (fun r => leaveBlock (leaveBlock r))
        | some (.bool false) => (execOptStmt fuel els env1 tr1).map leaveBlock
        | _ => some (.failed, env, tr1)
      | other => other.map leaveBlock
    | .SwitchStmt init tag body =>
      match execOptStmt fuel init ([] :: env) tr with
      | some (.normal, env1, tr1) =>
        match (match tag with
          | none => some (Value.bool true)
          | some t => evalExpr env1 t) with
        | none => some (.failed, env, tr1)
        | some tagv =>
          match matchClause env1 tagv body with
          | none => some (.failed, env, tr1)
          | some (some stmts) =>
            (execStmts fuel stmts ([] :: env1) tr1).map (fun r => leaveBlock (leaveBlock r))
          | some none =>
            match defaultClause body with
            | some stmts =>
              (execStmts fuel stmts ([] :: env1) tr1).map (fun r => leaveBlock (leaveBlock r))
            | none => some (.normal, env1.tail, tr1)
      | other => other.map leaveBlock
    | .ForStmt init cond post body =>
      match execOptStmt fuel init ([] :: env) tr with
      | some (.normal, env1, tr1) => (execLoop fuel cond post body env1 tr1).map leaveBlock
      | other => other.map leaveBlock
    | _ => some (.failed, env, tr)
/-- Execution of a statement list in the current block. -/
def execStmts : Nat → List Stmt → Env → List Event → Option Result
  | 0, _, _, _ => none
  | _ + 1, [], env, tr => some (.normal, env, tr)
  | fuel + 1, s :: rest, env, tr =>
    match execStmt fuel s env tr with
    | some (.normal, env1, tr1) => execStmts fuel rest env1 tr1
    | other => other
/-- Execution of an optional statement. -/
def execOptStmt : Nat → Option Stmt → Env → List Event → Option Result
  | 0, _, _, _ => none
  | _ + 1, none, env, tr => some (.normal, env, tr)
  | fuel + 1, some s, env, tr => execStmt fuel s env tr
/-- The iterations of a `for` statement: condition, body in a block of its
own, post statement. -/
def execLoop : Nat → Option Expr → Option Stmt → List Stmt → Env → List Event → Option Result
  | 0, _, _, _, _, _ => none
  | fuel + 1, cond, post, body, env, tr =>
    match (match cond with
      | none => some (Value.bool true)
      | some c => evalExpr env c) with
    | some (.bool false) => some (.normal, env, tr)
    | some (.bool true) =>
      match (execStmts fuel body ([] :: env) tr).map leaveBlock with
      | some (.normal, env1, tr1) =>
        match execOptStmt fuel post env1 tr1 with
        | some (.normal, env2, tr2) => execLoop fuel cond post body env2 tr2
        | other => other
      | other => other
    | _ => some (.failed, env, tr)
end

/-- Execution of a function body in a block of its own, above the
enclosing environment. -/
def runBody (fuel : Nat) (body : Option (List Stmt)) (env : Env) : Option Result :=
  match body with
  | none => some (.failed, env, [])
  | some lst => (execStmts fuel lst ([] :: env) []).map leaveBlock

/-! ## The obfuscation levels -/

/-- The position of a level in the order `none < light < medium < heavy`
(the levels accepted by the `build` command); `none` for any other
string. -/
def levelRank (level : String) : Option Nat :=
  if level = "none" then some 0
  else if level = "light" then some 1
  else if level = "medium" then some 2
  else if level = "heavy" then some 3
  else none

/-- The four levels in increasing order. -/
def levels : List String := ["none", "light", "medium", "heavy"]

/-! ## Inputs used in the examples -/

/-- A library instance for the examples: ASCII upper case, and a block
function that adds key and block bytewise. -/
def demoLib : Lib :=
  { isUpper := Char.isUpper
    aesEncrypt := fun key blk => List.zipWith (fun k b => (k + b) % 256) key blk }

/-- A 16-byte key. -/
def demoKey : List Nat := [1, 2, 3, 4, 5, 6, 7, 8, 9, 10, 11, 12, 13, 14, 15, 16]

/-- The statement `println(args...)`. -/
def printlnStmt (args : List Expr) : Stmt :=
  .ExprStmt (.CallExpr (.Ident (NewIdent "println")) args)

/-- A function `func f()` with the given body. -/
def funcOf (body : List Stmt) : FuncDecl :=
  { Recv := [], Name := { Name := "f", Obj := some { Id := 100, Kind := .Fun, Name := "f", Decl := .FuncDecl } }
    Typ := { Params := [], Results := [] }, Body := some body }

/-- A random source of 96 bytes, none of them rejected by the sampling of
`rand.Int`. -/
def demoReader : Reader := List.range 48 ++ (List.range 48).reverse

/-- The object of the package-level variable `counter`. -/
def objCounter : Object := { Id := 1, Kind := .Var, Name := "counter", Decl := .ValueSpec }
/-- The object of the function `f`. -/
def objF : Object := { Id := 2, Kind := .Fun, Name := "f", Decl := .FuncDecl }
/-- The object of the parameter `n`. -/
def objN : Object := { Id := 3, Kind := .Var, Name := "n", Decl := .Field }
/-- The object of the local variable `total`. -/
def objTotal : Object := { Id := 4, Kind := .Var, Name := "total", Decl := .AssignStmt }

/-- The file `package p; var counter int; func f(n int) int { return n +
counter }`. -/
def paramFile : File :=
  { Name := NewIdent "p"
    Decls := [
      .GenDecl { Tok := .VAR, Specs := [.ValueSpec [{ Name := "counter", Obj := some objCounter }]
        (some (.Ident (NewIdent "int"))) []] },
      .FuncDecl
        { Recv := []
          Name := { Name := "f", Obj := some objF }
          Typ :=
            { Params := [.mk [{ Name := "n", Obj := some objN }] (.Ident (NewIdent "int")) none]
              Results := [.mk [] (.Ident (NewIdent "int")) none] }
          Body := some [.ReturnStmt [.BinaryExpr (.Ident { Name := "n", Obj := some objN }) .ADD
            (.Ident { Name := "counter", Obj := some objCounter })]] }] }

/-- The file `package p; func f() { total := 0; total++ }`. -/
def totalFile : File :=
  { Name := NewIdent "p"
    Decls := [
      .FuncDecl
        { Recv := []
          Name := { Name := "f", Obj := some objF }
          Typ := { Params := [], Results := [] }
          Body := some [
            .AssignStmt [.Ident { Name := "total", Obj := some objTotal }] .DEFINE
              [.BasicLit { Kind := .INT, Value := "0" }],
            .IncDecStmt (.Ident { Name := "total", Obj := some objTotal }) .INC] }] }

/-- The file `package p; import "fmt"; const s, t = "a\"", R` where `R` is
the raw literal with content `raw`: an import path, an interpreted literal
that ends with an escaped quote, and a raw literal. -/
def litFile : File :=
  { Name := NewIdent "p"
    Decls := [
      .GenDecl { Tok := .IMPORT, Specs := [.ImportSpec none { Kind := .STRING, Value := "\"fmt\"" }] },
      .GenDecl { Tok := .CONST, Specs := [.ValueSpec
        [{ Name := "s", Obj := some { Id := 5, Kind := .Con, Name := "s", Decl := .ValueSpec } },
         { Name := "t", Obj := some { Id := 6, Kind := .Con, Name := "t", Decl := .ValueSpec } }]
        none
        [.BasicLit { Kind := .STRING, Value := "\"a\\\"\"" },
         .BasicLit { Kind := .STRING, Value := "\x60raw\x60" }]] }] }

/-- The names of all identifier nodes of a file, in traversal order. -/
def namesOf (file : File) : List String := (identsOf file).map Ident.Name

/-- The texts of all literal nodes of a file, in traversal order. -/
def valuesOf (file : File) : List String := (litsOf file).map BasicLit.Value

/-- The tree a run handed to the printer, if the run completed. -/
def printed (x : Except Fault (File × Reader)) : Option File :=
  match x with
  | .ok (file, _) => some file
  | .error _ => none

/-- The file `paramFile` after step 1 under `demoReader`. -/
def paramFileRenamed : File :=
  { Name := NewIdent "p"
    Decls := [
      .GenDecl { Tok := .VAR, Specs := [.ValueSpec [{ Name := "xabcdefghijklmnop", Obj := some objCounter }]
        (some (.Ident (NewIdent "int"))) []] },
      .FuncDecl
        { Recv := []
          Name := { Name := "f", Obj := some objF }
          Typ :=
            { Params := [.mk [{ Name := "xqrstuvwxyzABCDEF", Obj := some objN }] (.Ident (NewIdent "int")) none]
              Results := [.mk [] (.Ident (NewIdent "int")) none] }
          Body := some [.ReturnStmt [.BinaryExpr (.Ident { Name := "xGHIJKLMNOPQRSTUV", Obj := some objN }) .ADD
            (.Ident { Name := "xVUTSRQPONMLKJIHG", Obj := some objCounter })]] }] }

/-- The names of the parameters of the function declarations of a file. -/
def paramNames (file : File) : List String :=
  file.Decls.flatMap (fun d =>
    match d with
    | .FuncDecl fn => fn.Typ.Params.flatMap (fun f =>
        match f with
        | .mk names _ _ => names.map Ident.Name)
    | .GenDecl _ => [])

/-- The names declared by the package-level `var` declarations of a file. -/
def packageVarNames (file : File) : List String :=
  file.Decls.flatMap (fun d =>
    match d with
    | .GenDecl g =>
      if g.Tok = Token.VAR then
        g.Specs.flatMap (fun sp =>
          match sp with
          | .ValueSpec names _ _ => names.map Ident.Name
          | _ => [])
      else []
    | .FuncDecl _ => [])

/-- What step 1 does to one node: a literal is kept; an identifier keeps its
object, is kept unchanged unless it is a target, and a target gets a
generated name. -/
def renamed (L : Lib) : Leaf → Leaf → Prop
  | .ident old, .ident new =>
    new.Obj = old.Obj ∧ (renameTarget L old = false → new = old) ∧
      (renameTarget L old = true → crypticShape new.Name)
  | .lit a, .lit b => b = a
  | _, _ => False

/-- The body of the flattened `func f()` with the given body, if
`flattenControlFlow` returns. -/
def flattened (body : List Stmt) : Option (List Stmt) :=
  match flattenControlFlow (funcOf body) with
  | .ok fn => fn.Body
  | .error _ => none

/-- The body `x := 1; println(x)`. -/
def declUseBody : List Stmt :=
  [.AssignStmt [.Ident (NewIdent "x")] .DEFINE [.BasicLit { Kind := .INT, Value := "1" }],
   printlnStmt [.Ident (NewIdent "x")]]

/-- The body `println(state); println(2)`, where `state` is a variable of
the enclosing block. -/
def stateUseBody : List Stmt :=
  [printlnStmt [.Ident (NewIdent "state")],
   printlnStmt [.BasicLit { Kind := .INT, Value := "2" }]]

/-- An enclosing block that declares `state` with the value 7. -/
def stateEnv : Env := [[("state", .int 7)]]

/-- The events of a result. -/
def eventsOf (x : Option Result) : Option (List Event) := x.map (fun res => res.2.2)

/-- The outcome of a result. -/
def outcomeOf (x : Option Result) : Option Outcome := x.map (fun res => res.1)

/-- The file `litFile` after the transform at level medium under `demoKey`
and `demoReader`. -/
def litFileMedium : File :=
  { Name := NewIdent "p"
    Decls := [
      .GenDecl { Tok := .IMPORT, Specs := [.ImportSpec none
        { Kind := .STRING, Value := "decryptString(\"AAECAwQFBgcICQoLDA0OD2ducQ==\")" }] },
      .GenDecl { Tok := .CONST, Specs := [.ValueSpec
        [{ Name := "s", Obj := some { Id := 5, Kind := .Con, Name := "s", Decl := .ValueSpec } },
         { Name := "t", Obj := some { Id := 6, Kind := .Con, Name := "t", Decl := .ValueSpec } }]
        none
        [.BasicLit { Kind := .STRING, Value := "decryptString(\"EBESExQVFhcYGRobHB0eH3BP\")" },
         .BasicLit { Kind := .STRING, Value := "decryptString(\"ICEiIyQlJicoKSorLC0uL0FRRFBJ\")" }]] },
      .FuncDecl (decryptFunc demoKey),
      .FuncDecl decryptAESFunc] }

/-- The name of a declaration, if it is a function declaration. -/
def funcName : Decl → Option String
  | .FuncDecl fn => some fn.Name.Name
  | .GenDecl _ => none

/-- A step of the heavy-level loops on one declaration, when it does not
fault. -/
def applyTo (g : FuncDecl → Except Fault FuncDecl) : Decl → Decl
  | .FuncDecl fn =>
    match g fn with
    | .ok fn1 => .FuncDecl fn1
    | .error _ => .FuncDecl fn
  | .GenDecl d => .GenDecl d

/-- The number of top-level statements of the body of a declaration: `none`
for a general declaration, `some none` for a function without a body. -/
def declSize : Decl → Option (Option Nat)
  | .FuncDecl fn => some (fn.Body.map List.length)
  | .GenDecl _ => none

/-- Whether a declaration is a function declaration. -/
def isFunc : Decl → Bool
  | .FuncDecl _ => true
  | .GenDecl _ => false

/-- The declaration `func g()` without a body (a function implemented
outside Go). -/
def bodiless : FuncDecl :=
  { Recv := [], Name := { Name := "g", Obj := some { Id := 7, Kind := .Fun, Name := "g", Decl := .FuncDecl } }
    Typ := { Params := [], Results := [] }, Body := none }

/-- The file `package p; func g()`. -/
def bodilessFile : File :=
  { Name := NewIdent "p", Decls := [.FuncDecl bodiless] }

/-- The body `println(1); println(2); println(3)`. -/
def threeBody : List Stmt :=
  [printlnStmt [.BasicLit { Kind := .INT, Value := "1" }],
   printlnStmt [.BasicLit { Kind := .INT, Value := "2" }],
   printlnStmt [.BasicLit { Kind := .INT, Value := "3" }]]

/-- The file `package p; func f() { println(1); println(2); println(3) }`. -/
def threeFile : File :=
  { Name := NewIdent "p", Decls := [.FuncDecl (funcOf threeBody)] }

/-- The body that step 3 followed by step 4 builds from the statements
`stmts`: the marker, the definition of `state`, and the loop over the
dispatch. -/
def heavyBody (stmts : List Stmt) : List Stmt :=
  [deadCode,
   .AssignStmt [.Ident (NewIdent "state")] .DEFINE [.BasicLit { Kind := .INT, Value := "0" }],
   .ForStmt none
     (some (.BinaryExpr (.Ident (NewIdent "state")) .LSS
       (.BasicLit { Kind := .INT, Value := toString stmts.length })))
     none
     [.SwitchStmt none (some (.Ident (NewIdent "state"))) (buildCases 0 stmts [])]]

/-- The key literal that `decryptFunc` passes to `decryptAES`. -/
def keyLit (key : List Nat) : BasicLit :=
  { Kind := .STRING, Value := "\"" ++ EncodeToString key ++ "\"" }

/-- A directory entry for a Go file that parses to `file` and can be
written. -/
def goEntry (path : String) (file : File) : WalkEntry :=
  { path := path, err := none, IsDir := false, parsed := .ok file, createErr := none,
    printErr := none }

/-- The error a run returned and, for every file written, its path and the
texts of its literals; `none` if the run panicked. -/
def written (x : Except Fault ((Option Err × List (String × File)) × Reader)) :
    Option (Option Err × List (String × List String)) :=
  match x with
  | .ok ((err, outs), _) => some (err, outs.map (fun p => (p.1, valuesOf p.2)))
  | .error _ => none

/-- The path literals of the import declarations of a file. -/
def importPaths (file : File) : List String :=
  file.Decls.flatMap (fun d =>
    match d with
    | .GenDecl g =>
      g.Specs.flatMap (fun sp =>
        match sp with
        | .ImportSpec _ path => [path.Value]
        | _ => [])
    | .FuncDecl _ => [])

/-- The tag literals of the fields of a struct type. -/
def tagsOfExpr : Expr → List String
  | .StructType fields =>
    fields.flatMap (fun f =>
      match f with
      | .mk _ _ tag => (tag.map BasicLit.Value).toList)
  | _ => []

/-- The tag literals of the struct types declared at the top level of a
file. -/
def fieldTags (file : File) : List String :=
  file.Decls.flatMap (fun d =>
    match d with
    | .GenDecl g =>
      g.Specs.flatMap (fun sp =>
        match sp with
        | .TypeSpec _ typ => tagsOfExpr typ
        | _ => [])
    | .FuncDecl _ => [])

/-- The file `package p; import "fmt"; type T struct { A int R }` where `R`
is the raw literal with content `json:"a"`, the tag of the field. -/
def tagFile : File :=
  { Name := NewIdent "p"
    Decls := [
      .GenDecl { Tok := .IMPORT, Specs := [.ImportSpec none { Kind := .STRING, Value := "\"fmt\"" }] },
      .GenDecl { Tok := .TYPE, Specs := [.TypeSpec
        { Name := "T", Obj := some { Id := 8, Kind := .Typ, Name := "T", Decl := .TypeSpec } }
        (.StructType [.mk [{ Name := "A", Obj := some { Id := 9, Kind := .Var, Name := "A", Decl := .Field } }]
          (.Ident (NewIdent "int")) (some { Kind := .STRING, Value := "\x60json:\"a\"\x60" })])] }] }

/-- The directory with the two files `a.go` (`litFile`) and `b.go`
(`totalFile`). -/
def twoFiles : List WalkEntry := [goEntry "a.go" litFile, goEntry "b.go" totalFile]

/-! ## The `build` command -/

/-- What the environment answers to the calls of the action of the `build`
command: `os.MkdirTemp`, `copyDir`, `obfuscator.TransformSource`, the run of
`garble build`, and `os.Rename`. -/
structure BuildEnv where
  mkdirTemp : Except Err String
  copyDir : Option Err
  transformSource : Option Err
  garble : Option Err
  rename : Option Err

/-- The calls the action makes on the file system and on other programs,
and its log lines. -/
inductive Effect where
  | MkdirTemp
  | Log (msg : String)
  | CopyDir (dst : String)
  | TransformSource (dir : String) (level : String)
  | Garble (dir : String)
  | Rename (dir : String)
  | RemoveAll (dir : String)
deriving DecidableEq, Repr

/-- The value `c.String("level")` of the flag `level`, whose `Value` is
`light`: the text given on the command line, or the default. -/
def levelFlag (given : Option String) : String := given.getD "light"

/-- The function `transformSource` of the command: the log line and the
call of `obfuscator.TransformSource`. -/
def transformSourceLogged (env : BuildEnv) (dir level : String) (verbose : Bool) :
    Option Err × List Effect :=
  (env.transformSource,
    (if verbose then [Effect.Log ("Applying transformations with level: " ++ level)] else []) ++
      [.TransformSource dir level])

/-- The `Action` of the `build` command: the returned error (`none` for nil)
and the calls made, in order; the deferred `os.RemoveAll` comes last. -/
def buildAction (env : BuildEnv) (given : Option String) (verbose : Bool) :
    Option Err × List Effect :=
  let level := levelFlag given
  if level = "none" ∨ level = "light" ∨ level = "medium" ∨ level = "heavy" then
    match env.mkdirTemp with
    | .error err => (some (.Wrapped "failed to create temp dir" err), [.MkdirTemp])
    | .ok tempDir =>
      let eff1 := [Effect.MkdirTemp] ++
        (if verbose then [Effect.Log ("Created temp directory: " ++ tempDir)] else []) ++
        [.CopyDir tempDir]
      match env.copyDir with
      | some err => (some (.Wrapped "failed to copy directory" err), eff1 ++ [.RemoveAll tempDir])
      | none =>
        let eff2 := eff1 ++ (if verbose then [Effect.Log ("Copied source to " ++ tempDir)] else [])
        match transformSourceLogged env tempDir level verbose with
        | (some err, eff) =>
          (some (.Wrapped "failed to transform source" err), eff2 ++ eff ++ [.RemoveAll tempDir])
        | (none, eff) =>
          let eff3 := eff2 ++ eff ++ [.Garble tempDir]
          match env.garble with
          | some err => (some (.Wrapped "garble build failed" err), eff3 ++ [.RemoveAll tempDir])
          | none =>
            (env.rename,
              eff3 ++ (if verbose then [Effect.Log "Build completed successfully"] else []) ++
                [.Rename tempDir, .RemoveAll tempDir])
  else
    (some (.Other ("invalid obfuscation level: " ++ level)), [])

/-- An environment in which every call succeeds. -/
def demoEnv : BuildEnv :=
  { mkdirTemp := .ok "/tmp/obfuscated1", copyDir := none, transformSource := none, garble := none,
    rename := none }

/-- The file `package p; var s = "secret"`. -/
def secretFile : File :=
  { Name := NewIdent "p"
    Decls := [
      .GenDecl { Tok := .VAR, Specs := [.ValueSpec
        [{ Name := "s", Obj := some { Id := 10, Kind := .Var, Name := "s", Decl := .ValueSpec } }]
        none
        [.BasicLit { Kind := .STRING, Value := "\"secret\"" }]] }] }

/-- The statement with index `i` of the body of a function declaration. -/
def bodyStmt (fn : FuncDecl) (i : Nat) : Option Stmt :=
  match fn.Body with
  | none => none
  | some lst => lst.get? i

/-! ## Theorems -/

theorem buildCases_eq (stmts : List Stmt) : ∀ (i : Nat) (acc : List Stmt),
    buildCases i stmts acc = acc ++ (List.range stmts.length).map
      (fun j => caseClause (i + j) (stmts.getD j (.BlockStmt []))) := by
  induction stmts with
  | nil => intro i acc; simp [buildCases]
  | cons s rest ih =>
    intro i acc
    rw [buildCases, ih]
    simp only [List.length_cons, List.range_succ_eq_map, List.map_cons, List.map_map,
      List.append_assoc, List.singleton_append, Nat.add_zero, List.getD_cons_zero]
    congr 2
    apply List.map_congr_left
    intro j _
    simp only [Function.comp, List.getD_cons_succ]
    congr 1
    omega

/-! ### Control-flow flattening -/

theorem buildCases_length (stmts : List Stmt) (i : Nat) (acc : List Stmt) :
    (buildCases i stmts acc).length = acc.length + stmts.length := by
  rw [buildCases_eq]; simp

theorem buildCases_get (stmts : List Stmt) (i : Nat) (h : i < stmts.length) :
    (buildCases 0 stmts [])[i]? = some (caseClause i stmts[i]) := by
  rw [buildCases_eq]
  simp [List.getElem?_map, List.getElem?_range h, List.getD_eq_getElem?_getD, List.getElem?_eq_getElem h]

/-- C1: for a function whose body is a list of `N ≥ 1` statements,
`flattenControlFlow` returns the function with the two-statement body
`state := 0; for state < N { switch state { ... } }`, where the switch has
exactly `N` case clauses and clause `i` is `case i:` followed by the
original statement `i`, unmodified, and `state++`. -/
theorem flattenControlFlow_structure (fn : FuncDecl) (stmts : List Stmt)
    (hbody : fn.Body = some stmts) (hN : 1 ≤ stmts.length) :
    ∃ cases : List Stmt,
      flattenControlFlow fn = .ok { fn with Body := some [
        .AssignStmt [.Ident (NewIdent "state")] .DEFINE [.BasicLit { Kind := .INT, Value := "0" }],
        .ForStmt none
          (some (.BinaryExpr (.Ident (NewIdent "state")) .LSS
            (.BasicLit { Kind := .INT, Value := toString stmts.length })))
          none
          [.SwitchStmt none (some (.Ident (NewIdent "state"))) cases]] } ∧
      cases.length = stmts.length ∧
      ∀ (i : Nat) (h : i < stmts.length),
        cases[i]? = some (.CaseClause [.BasicLit { Kind := .INT, Value := toString i }]
          [stmts[i], .IncDecStmt (.Ident (NewIdent "state")) .INC]) := by
  refine ⟨buildCases 0 stmts [], ?_, ?_, ?_⟩
  · have hne : ¬ stmts.length = 0 := by omega
    simp [flattenControlFlow, hbody, hne]
  · simp [buildCases_length]
  · intro i h
    rw [buildCases_get stmts i h]
    rfl

/-- Witness for C1: the body `println("a"); return`. -/
theorem flattenControlFlow_structure_witness :
    ∃ cases : List Stmt,
      flattenControlFlow (funcOf [printlnStmt [.BasicLit { Kind := .STRING, Value := "\"a\"" }], .ReturnStmt []])
        = .ok { funcOf [printlnStmt [.BasicLit { Kind := .STRING, Value := "\"a\"" }], .ReturnStmt []] with
          Body := some [
            .AssignStmt [.Ident (NewIdent "state")] .DEFINE [.BasicLit { Kind := .INT, Value := "0" }],
            .ForStmt none
              (some (.BinaryExpr (.Ident (NewIdent "state")) .LSS
                (.BasicLit { Kind := .INT, Value := "2" })))
              none
              [.SwitchStmt none (some (.Ident (NewIdent "state"))) cases]] } ∧
      cases.length = 2 ∧
      ∀ (i : Nat) (h : i < [printlnStmt [.BasicLit { Kind := .STRING, Value := "\"a\"" }], Stmt.ReturnStmt []].length),
        cases[i]? = some (.CaseClause [.BasicLit { Kind := .INT, Value := toString i }]
          [[printlnStmt [.BasicLit { Kind := .STRING, Value := "\"a\"" }], Stmt.ReturnStmt []][i],
            .IncDecStmt (.Ident (NewIdent "state")) .INC]) :=
  flattenControlFlow_structure
    (funcOf [printlnStmt [.BasicLit { Kind := .STRING, Value := "\"a\"" }], .ReturnStmt []])
    [printlnStmt [.BasicLit { Kind := .STRING, Value := "\"a\"" }], .ReturnStmt []] rfl (by decide)

/-! ### Level gating -/

theorem levelRank_some (level : String) (n : Nat) (h : levelRank level = some n) :
    (level = "none" ∧ n = 0) ∨ (level = "light" ∧ n = 1) ∨ (level = "medium" ∧ n = 2) ∨
      (level = "heavy" ∧ n = 3) := by
  unfold levelRank at h
  split_ifs at h with h0 h1 h2 h3 <;> simp at h <;> simp [*]

/-- C8: level monotonicity.  For each of the four transforms, if its guard
in `TransformSource` holds at a level then it holds at every greater level
of `none < light < medium < heavy`; among the four levels renaming is
active exactly at light, medium and heavy, literal encryption exactly at
medium and heavy, flattening and dead-code injection exactly at heavy. -/
theorem active_monotone :
    (∀ (t : Transform) (l1 l2 : String) (n1 n2 : Nat),
      levelRank l1 = some n1 → levelRank l2 = some n2 → n1 < n2 →
      active t l1 = true → active t l2 = true) ∧
    levels.filter (active .renaming) = ["light", "medium", "heavy"] ∧
    levels.filter (active .literalEncryption) = ["medium", "heavy"] ∧
    levels.filter (active .flattening) = ["heavy"] ∧
    levels.filter (active .deadCode) = ["heavy"] := by
  refine ⟨?_, by decide, by decide, by decide, by decide⟩
  intro t l1 l2 n1 n2 h1 h2 hlt hact
  rcases levelRank_some l1 n1 h1 with ⟨rfl, rfl⟩ | ⟨rfl, rfl⟩ | ⟨rfl, rfl⟩ | ⟨rfl, rfl⟩ <;>
    rcases levelRank_some l2 n2 h2 with ⟨rfl, rfl⟩ | ⟨rfl, rfl⟩ | ⟨rfl, rfl⟩ | ⟨rfl, rfl⟩ <;>
    first
      | omega
      | (cases t <;> first | rfl | (exact absurd hact (by decide)))

/-- Witness for C8: literal encryption, active at medium, is active at
heavy. -/
theorem active_monotone_witness :
    active .literalEncryption "medium" = true ∧ active .literalEncryption "heavy" = true :=
  ⟨by decide,
    active_monotone.1 .literalEncryption "medium" "heavy" 2 3 (by decide) (by decide) (by decide)
      (by decide)⟩

/-- C9: at level `none` the tree handed to the printer is the parsed tree,
and no random byte is consumed, for every file, key and random source. -/
theorem transformFile_none (L : Lib) (key : List Nat) (file : File) (r : Reader) :
    transformFile L key "none" file r = .ok (file, r) := by
  have h1 : active .renaming "none" = false := by decide
  have h2 : active .literalEncryption "none" = false := by decide
  have h3 : active .flattening "none" = false := by decide
  have h4 : active .deadCode "none" = false := by decide
  simp [transformFile, stepRename, stepEncrypt, stepFlatten, stepDeadCode, h1, h2, h3, h4,
    liftFault, bind, StateT.bind, Except.bind, pure, StateT.pure, Except.pure]


/-! ### The cipher helper -/

theorem b64Index_b64Char : ∀ n, n < 64 → b64Index (b64Char n) = some n := by decide

theorem b64Char_ne_pad : ∀ n, n < 64 → b64Char n ≠ '=' := by decide

theorem decodeChars_encodeChars (bs : List Nat) (hb : ∀ b ∈ bs, b < 256) :
    ∀ off, decodeChars off (encodeChars bs) = .ok bs := by
  induction bs using encodeChars.induct with
  | case1 => intro off; simp [encodeChars, decodeChars]
  | case2 a =>
    intro off
    have ha : a < 256 := hb a (by simp)
    have h0 : a / 4 < 64 := by omega
    have h1 : a % 4 * 16 < 64 := by omega
    simp [encodeChars, decodeChars, b64Index_b64Char _ h0, b64Index_b64Char _ h1]
    omega
  | case3 a b =>
    intro off
    have ha : a < 256 := hb a (by simp)
    have hb' : b < 256 := hb b (by simp)
    have h0 : a / 4 < 64 := by omega
    have h1 : a % 4 * 16 + b / 16 < 64 := by omega
    have h2 : b % 16 * 4 < 64 := by omega
    have hne := b64Char_ne_pad _ h2
    simp [encodeChars, decodeChars, b64Index_b64Char _ h0, b64Index_b64Char _ h1,
      b64Index_b64Char _ h2, hne]
    omega
  | case4 a b c rest ih =>
    intro off
    have ha : a < 256 := hb a (by simp)
    have hb' : b < 256 := hb b (by simp)
    have hc : c < 256 := hb c (by simp)
    have h0 : a / 4 < 64 := by omega
    have h1 : a % 4 * 16 + b / 16 < 64 := by omega
    have h2 : b % 16 * 4 + c / 64 < 64 := by omega
    have h3 : c % 64 < 64 := by omega
    have hne2 := b64Char_ne_pad _ h2
    have hne3 := b64Char_ne_pad _ h3
    have ih' := ih (fun x hx => hb x (by simp [hx])) (off + 4)
    simp [encodeChars, decodeChars, b64Index_b64Char _ h0, b64Index_b64Char _ h1,
      b64Index_b64Char _ h2, b64Index_b64Char _ h3, hne2, hne3, ih']
    omega
theorem zipWith_xor_cancel : ∀ (a out : List Nat), a.length ≤ out.length →
    List.zipWith (fun x y => x ^^^ y) (List.zipWith (fun x y => x ^^^ y) a out) out = a
  | [], _, _ => by simp
  | x :: a, [], h => by simp at h
  | x :: a, y :: out, h => by
    simp only [List.zipWith_cons_cons, List.cons.injEq]
    refine ⟨?_, zipWith_xor_cancel a out (by simpa using h)⟩
    rw [Nat.xor_assoc, Nat.xor_self, Nat.xor_zero]

theorem XORKeyStream_nil (block : List Nat → List Nat) (decrypt : Bool) (fuel : Nat)
    (next : List Nat) : XORKeyStream block decrypt fuel next [] = [] := by
  cases fuel <;> simp [XORKeyStream]

theorem XORKeyStream_encrypt_step (block : List Nat → List Nat) (fuel : Nat)
    (next src : List Nat) (hs : src ≠ []) :
    XORKeyStream block false (fuel + 1) next src =
      List.zipWith (fun x y => x ^^^ y) (src.take BlockSize) (block next) ++
        XORKeyStream block false fuel
          (List.zipWith (fun x y => x ^^^ y) (src.take BlockSize) (block next) ++
            next.drop (List.zipWith (fun x y => x ^^^ y) (src.take BlockSize) (block next)).length)
          (src.drop BlockSize) := by
  rw [XORKeyStream, if_neg hs]
  simp

theorem XORKeyStream_decrypt_step (block : List Nat → List Nat) (fuel : Nat)
    (next src : List Nat) (hs : src ≠ []) :
    XORKeyStream block true (fuel + 1) next src =
      List.zipWith (fun x y => x ^^^ y) (src.take BlockSize) (block next) ++
        XORKeyStream block true fuel
          (src.take BlockSize ++ next.drop (src.take BlockSize).length)
          (src.drop BlockSize) := by
  rw [XORKeyStream, if_neg hs]
  simp

theorem XORKeyStream_length (block : List Nat → List Nat)
    (hblock : ∀ x, (block x).length = BlockSize) :
    ∀ (fuel : Nat) (next src : List Nat), src.length ≤ fuel →
      (XORKeyStream block false fuel next src).length = src.length := by
  intro fuel
  induction fuel with
  | zero => intro next src h; simp at h; simp [XORKeyStream, h]
  | succ fuel ih =>
    intro next src h
    by_cases hs : src = []
    · subst hs; simp [XORKeyStream_nil]
    · rw [XORKeyStream_encrypt_step _ _ _ _ hs]
      simp only [List.length_append, List.length_zipWith, List.length_take, hblock]
      rw [ih _ _ (by simp [BlockSize]; omega)]
      simp [BlockSize]; omega

theorem XORKeyStream_roundtrip (block : List Nat → List Nat)
    (hblock : ∀ x, (block x).length = BlockSize) :
    ∀ (fuel fuel2 : Nat) (next src : List Nat), src.length ≤ fuel → src.length ≤ fuel2 →
      XORKeyStream block true fuel2 next (XORKeyStream block false fuel next src) = src := by
  intro fuel
  induction fuel with
  | zero =>
    intro fuel2 next src h _
    simp at h
    subst h
    simp [XORKeyStream_nil]
  | succ fuel ih =>
    intro fuel2 next src h h2
    by_cases hs : src = []
    · subst hs; simp [XORKeyStream_nil]
    · have hpos : 0 < src.length := List.length_pos.mpr hs
      cases fuel2 with
      | zero => omega
      | succ fuel2 =>
        rw [XORKeyStream_encrypt_step _ _ _ _ hs]
        set dst := List.zipWith (fun x y => x ^^^ y) (List.take BlockSize src) (block next) with hdst
        have hdl : dst.length = min BlockSize src.length := by
          simp [hdst, hblock]
        set rest := XORKeyStream block false fuel (dst ++ List.drop dst.length next)
          (List.drop BlockSize src) with hrest
        have hrl : rest.length = (List.drop BlockSize src).length :=
          XORKeyStream_length block hblock fuel _ _ (by simp [BlockSize]; omega)
        have hne : dst ++ rest ≠ [] := by
          intro hc
          have : dst.length = 0 := by simp [List.append_eq_nil.mp hc]
          simp [BlockSize] at hdl; omega
        rw [XORKeyStream_decrypt_step _ _ _ _ hne]
        have htake : List.take BlockSize (dst ++ rest) = dst := by
          by_cases hl : BlockSize ≤ src.length
          · have : dst.length = BlockSize := by omega
            rw [List.take_append_of_le_length (by omega), List.take_of_length_le (by omega)]
          · have : rest = [] := by
              apply List.eq_nil_of_length_eq_zero
              rw [hrl]; simp; omega
            rw [this, List.append_nil, List.take_of_length_le (by omega)]
        have hdrop : List.drop BlockSize (dst ++ rest) = rest := by
          by_cases hl : BlockSize ≤ src.length
          · have : dst.length = BlockSize := by omega
            rw [← this, List.drop_left]
          · have : rest = [] := by
              apply List.eq_nil_of_length_eq_zero
              rw [hrl]; simp; omega
            rw [this, List.append_nil, List.drop_of_length_le (by omega)]
        rw [htake, hdrop]
        have hxor : List.zipWith (fun x y => x ^^^ y) dst (block next) = List.take BlockSize src := by
          rw [hdst]
          apply zipWith_xor_cancel
          simp [hblock]
        rw [hxor, hrest, ih fuel2 _ _ (by simp [BlockSize]; omega) (by simp [BlockSize]; omega)]
        exact List.take_append_drop _ _

theorem bytesOf_lt (s : String) : ∀ b ∈ bytesOf s, b < 256 := by
  intro b hb
  simp only [bytesOf, List.mem_flatMap, List.mem_map] at hb
  obtain ⟨c, _, u, _, rfl⟩ := hb
  exact u.val.isLt

theorem XORKeyStream_lt (block : List Nat → List Nat)
    (hblock : ∀ x, ∀ y ∈ block x, y < 256) :
    ∀ (fuel : Nat) (next src : List Nat), (∀ x ∈ src, x < 256) →
      ∀ b ∈ XORKeyStream block false fuel next src, b < 256 := by
  intro fuel
  induction fuel with
  | zero => intro next src _ b hb; simp [XORKeyStream] at hb
  | succ fuel ih =>
    intro next src hsrc b hb
    by_cases hs : src = []
    · subst hs; simp [XORKeyStream_nil] at hb
    · rw [XORKeyStream_encrypt_step _ _ _ _ hs, List.mem_append] at hb
      rcases hb with hb | hb
      · rw [List.mem_iff_getElem] at hb
        obtain ⟨i, hi, rfl⟩ := hb
        rw [List.getElem_zipWith]
        apply Nat.xor_lt_two_pow (n := 8)
        · exact hsrc _ (List.mem_of_mem_take (List.getElem_mem _))
        · exact hblock _ _ (List.getElem_mem _)
      · exact ih _ _ (fun x hx => hsrc x (List.mem_of_mem_drop hx)) b hb

theorem NewCipher_ok (L : Lib) (key : List Nat) (hkey : key.length = 16) :
    ∃ block, NewCipher L key = .ok block ∧ (∀ x, (block x).length = BlockSize) ∧
      (∀ x, ∀ y ∈ block x, y < 256) := by
  refine ⟨_, by unfold NewCipher; rw [if_pos (Or.inl hkey)], ?_, ?_⟩
  · intro x; simp
  · intro x y hy
    simp only [List.mem_map] at hy
    obtain ⟨i, _, rfl⟩ := hy
    exact Nat.mod_lt _ (by decide)

theorem ReadFull_ok (n : Nat) (r : Reader) (h : n ≤ r.length) :
    ReadFull n r = (.ok ((r.take n).map (fun b => b % 256)), r.drop n) := by
  unfold ReadFull
  split_ifs with h0 h1 h2
  · subst h0; simp
  · have : n = 0 := by omega
    exact absurd this h0
  · omega
  · rfl

/-- For a 16-byte key and a random source that delivers the 16 bytes of the
IV, `EncryptString` returns the base64 text of the IV followed by as many
ciphertext bytes as the plaintext has bytes, and the decrypt routine of the
specification, `specDecrypt`, maps that text under the same key to the bytes
of the plaintext. -/
theorem EncryptString_roundtrip (L : Lib) (p : String) (key : List Nat) (r : Reader)
    (hkey : key.length = 16) (hr : 16 ≤ r.length) :
    ∃ ct : List Nat,
      EncryptString L p key r =
        (.ok (EncodeToString ((r.take 16).map (fun b => b % 256) ++ ct)), r.drop 16) ∧
      ct.length = (bytesOf p).length ∧
      specDecrypt L (EncodeToString ((r.take 16).map (fun b => b % 256) ++ ct)) key =
        .ok (bytesOf p) := by
  obtain ⟨block, hnc, hlen, hlt⟩ := NewCipher_ok L key hkey
  have hrf := ReadFull_ok 16 r hr
  have hivlen : ((r.take 16).map (fun b => b % 256)).length = 16 := by simp; omega
  have hivlt : ∀ b ∈ (r.take 16).map (fun b => b % 256), b < 256 := by
    intro b hb
    simp only [List.mem_map] at hb
    obtain ⟨x, _, rfl⟩ := hb
    exact Nat.mod_lt _ (by decide)
  generalize (r.take 16).map (fun b => b % 256) = iv at hrf hivlen hivlt ⊢
  refine ⟨XORKeyStream block false (bytesOf p).length iv (bytesOf p), ?_, ?_, ?_⟩
  · simp [EncryptString, hnc, BlockSize, hrf]
  · exact XORKeyStream_length block hlen _ _ _ (le_refl _)
  · have hbytes : ∀ b ∈ iv ++ XORKeyStream block false (bytesOf p).length iv (bytesOf p),
        b < 256 := by
      intro b hb
      rw [List.mem_append] at hb
      rcases hb with hb | hb
      · exact hivlt b hb
      · exact XORKeyStream_lt block hlt _ _ _ (bytesOf_lt p) b hb
    have hdec := decodeChars_encodeChars _ hbytes 0
    simp only [specDecrypt, DecodeString, EncodeToString, hdec, hnc]
    rw [List.take_append_of_le_length (by omega), List.take_of_length_le (by omega),
      ← hivlen, List.drop_left]
    rw [XORKeyStream_roundtrip block hlen _ _ _ _ (le_refl _)
      (by rw [XORKeyStream_length block hlen _ _ _ (le_refl _)])]

/-- The round trip of `EncryptString` and `specDecrypt` on the plaintext
`secret` under the example key. -/
theorem EncryptString_roundtrip_witness :
    ∃ ct : List Nat,
      EncryptString demoLib "secret" demoKey (List.replicate 20 7) =
        (.ok (EncodeToString (((List.replicate 20 7).take 16).map (fun b => b % 256) ++ ct)),
          (List.replicate 20 7).drop 16) ∧
      ct.length = (bytesOf "secret").length ∧
      specDecrypt demoLib
        (EncodeToString (((List.replicate 20 7).take 16).map (fun b => b % 256) ++ ct)) demoKey =
        .ok (bytesOf "secret") :=
  EncryptString_roundtrip demoLib "secret" demoKey (List.replicate 20 7) (by decide) (by decide)

/-! ### Traversal and leaves -/

theorem visitLeaves_append (v : Visitor) (a b : List Leaf) :
    visitLeaves v (a ++ b) = (do
      let a1 ← visitLeaves v a
      let b1 ← visitLeaves v b
      pure (a1 ++ b1)) := by
  induction a with
  | nil => simp [visitLeaves]
  | cons x xs ih =>
    cases x <;> simp [visitLeaves, ih]

theorem leaves_walkIdents (v : Visitor) (xs : List Ident) :
    (fun l => l.map Leaf.ident) <$> walkIdents v xs = visitLeaves v (xs.map Leaf.ident) := by
  induction xs with
  | nil => simp [walkIdents, visitLeaves]
  | cons x xs ih => simp [walkIdents, visitLeaves, ← ih]

theorem leaves_walkOptLit (v : Visitor) (x : Option BasicLit) :
    (fun l => l.toList.map Leaf.lit) <$> walkOptLit v x = visitLeaves v (x.toList.map Leaf.lit) := by
  cases x <;> simp [walkOptLit, visitLeaves]

theorem leaves_walkOptIdent (v : Visitor) (x : Option Ident) :
    (fun l => l.toList.map Leaf.ident) <$> walkOptIdent v x = visitLeaves v (x.toList.map Leaf.ident) := by
  cases x <;> simp [walkOptIdent, visitLeaves]

mutual
theorem leaves_walkExpr (v : Visitor) : ∀ e : Expr,
    leavesExpr <$> walkExpr v e = visitLeaves v (leavesExpr e)
  | .Ident x => by simp [walkExpr, leavesExpr, visitLeaves]
  | .BasicLit x => by simp [walkExpr, leavesExpr, visitLeaves]
  | .CallExpr f args => by
    simp [walkExpr, leavesExpr, visitLeaves_append, ← leaves_walkExpr v f, ← leaves_walkExprs v args]
  | .SliceExpr x lo hi mx => by
    simp [walkExpr, leavesExpr, visitLeaves_append, ← leaves_walkExpr v x, ← leaves_walkOptExpr v lo,
      ← leaves_walkOptExpr v hi, ← leaves_walkOptExpr v mx]
  | .BinaryExpr x _ y => by
    simp [walkExpr, leavesExpr, visitLeaves_append, ← leaves_walkExpr v x, ← leaves_walkExpr v y]
  | .SelectorExpr x sel => by
    simp [walkExpr, leavesExpr, visitLeaves_append, ← leaves_walkExpr v x, visitLeaves]
  | .ParenExpr x => by
    simp [walkExpr, leavesExpr, ← leaves_walkExpr v x]
  | .StructType fields => by
    simp [walkExpr, leavesExpr, ← leaves_walkFields v fields]
theorem leaves_walkExprs (v : Visitor) : ∀ es : List Expr,
    leavesExprs <$> walkExprs v es = visitLeaves v (leavesExprs es)
  | [] => by simp [walkExprs, leavesExprs, visitLeaves]
  | e :: es => by
    simp [walkExprs, leavesExprs, visitLeaves_append, ← leaves_walkExpr v e, ← leaves_walkExprs v es]
theorem leaves_walkOptExpr (v : Visitor) : ∀ e : Option Expr,
    leavesOptExpr <$> walkOptExpr v e = visitLeaves v (leavesOptExpr e)
  | none => by simp [walkOptExpr, leavesOptExpr, visitLeaves]
  | some e => by simp [walkOptExpr, leavesOptExpr, ← leaves_walkExpr v e]
theorem leaves_walkField (v : Visitor) : ∀ f : Field,
    leavesField <$> walkField v f = visitLeaves v (leavesField f)
  | .mk names typ tag => by
    simp [walkField, leavesField, visitLeaves_append, ← leaves_walkExpr v typ,
      ← leaves_walkIdents, ← leaves_walkOptLit]
theorem leaves_walkFields (v : Visitor) : ∀ fs : List Field,
    leavesFields <$> walkFields v fs = visitLeaves v (leavesFields fs)
  | [] => by simp [walkFields, leavesFields, visitLeaves]
  | f :: fs => by
    simp [walkFields, leavesFields, visitLeaves_append, ← leaves_walkField v f, ← leaves_walkFields v fs]
end
theorem leaves_walkSpec (v : Visitor) (x : Spec) :
    leavesSpec <$> walkSpec v x = visitLeaves v (leavesSpec x) := by
  cases x with
  | ImportSpec name path =>
    simp [walkSpec, leavesSpec, visitLeaves_append, visitLeaves, ← leaves_walkOptIdent]
  | ValueSpec names typ values =>
    simp [walkSpec, leavesSpec, visitLeaves_append, ← leaves_walkIdents, ← leaves_walkOptExpr,
      ← leaves_walkExprs]
  | TypeSpec name typ =>
    simp [walkSpec, leavesSpec, visitLeaves, ← leaves_walkExpr]

theorem leaves_walkSpecs (v : Visitor) (xs : List Spec) :
    leavesSpecs <$> walkSpecs v xs = visitLeaves v (leavesSpecs xs) := by
  induction xs with
  | nil => simp [walkSpecs, leavesSpecs, visitLeaves]
  | cons x xs ih =>
    simp [walkSpecs, leavesSpecs, visitLeaves_append, ← leaves_walkSpec, ← ih]

theorem leaves_walkGenDecl (v : Visitor) (d : GenDecl) :
    (fun d1 : GenDecl => leavesSpecs d1.Specs) <$> walkGenDecl v d = visitLeaves v (leavesSpecs d.Specs) := by
  simp [walkGenDecl, ← leaves_walkSpecs]

mutual
theorem leaves_walkStmt (v : Visitor) : ∀ s : Stmt,
    leavesStmt <$> walkStmt v s = visitLeaves v (leavesStmt s)
  | .DeclStmt d => by simp [walkStmt, leavesStmt, ← leaves_walkGenDecl]
  | .ExprStmt x => by simp [walkStmt, leavesStmt, ← leaves_walkExpr]
  | .IncDecStmt x _ => by simp [walkStmt, leavesStmt, ← leaves_walkExpr]
  | .AssignStmt lhs _ rhs => by
    simp [walkStmt, leavesStmt, visitLeaves_append, ← leaves_walkExprs]
  | .ReturnStmt results => by simp [walkStmt, leavesStmt, ← leaves_walkExprs]
  | .BlockStmt lst => by simp [walkStmt, leavesStmt, ← leaves_walkStmts v lst]
  | .IfStmt init cond body els => by
    simp [walkStmt, leavesStmt, visitLeaves_append, ← leaves_walkExpr, ← leaves_walkStmts v body,
      ← leaves_walkOptStmt v init, ← leaves_walkOptStmt v els]
  | .CaseClause lst body => by
    simp [walkStmt, leavesStmt, visitLeaves_append, ← leaves_walkExprs, ← leaves_walkStmts v body]
  | .SwitchStmt init tag body => by
    simp [walkStmt, leavesStmt, visitLeaves_append, ← leaves_walkOptExpr, ← leaves_walkStmts v body,
      ← leaves_walkOptStmt v init]
  | .ForStmt init cond post body => by
    simp [walkStmt, leavesStmt, visitLeaves_append, ← leaves_walkOptExpr, ← leaves_walkStmts v body,
      ← leaves_walkOptStmt v init, ← leaves_walkOptStmt v post]
theorem leaves_walkStmts (v : Visitor) : ∀ xs : List Stmt,
    leavesStmts <$> walkStmts v xs = visitLeaves v (leavesStmts xs)
  | [] => by simp [walkStmts, leavesStmts, visitLeaves]
  | x :: xs => by
    simp [walkStmts, leavesStmts, visitLeaves_append, ← leaves_walkStmt v x, ← leaves_walkStmts v xs]
theorem leaves_walkOptStmt (v : Visitor) : ∀ x : Option Stmt,
    leavesOptStmt <$> walkOptStmt v x = visitLeaves v (leavesOptStmt x)
  | none => by simp [walkOptStmt, leavesOptStmt, visitLeaves]
  | some x => by simp [walkOptStmt, leavesOptStmt, ← leaves_walkStmt v x]
end

theorem leaves_walkOptBody (v : Visitor) (b : Option (List Stmt)) :
    (fun b1 : Option (List Stmt) => match b1 with
      | none => []
      | some lst => leavesStmts lst) <$> walkOptBody v b =
    visitLeaves v (match b with
      | none => []
      | some lst => leavesStmts lst) := by
  cases b with
  | none => simp [walkOptBody, visitLeaves]
  | some lst => simp [walkOptBody, ← leaves_walkStmts]

theorem leaves_walkFuncDecl (v : Visitor) (d : FuncDecl) :
    leavesFuncDecl <$> walkFuncDecl v d = visitLeaves v (leavesFuncDecl d) := by
  simp [walkFuncDecl, leavesFuncDecl, visitLeaves_append, visitLeaves, ← leaves_walkFields,
    ← leaves_walkOptBody]

theorem leaves_walkDecl (v : Visitor) (d : Decl) :
    leavesDecl <$> walkDecl v d = visitLeaves v (leavesDecl d) := by
  cases d with
  | GenDecl d => simp [walkDecl, leavesDecl, ← leaves_walkGenDecl]
  | FuncDecl d => simp [walkDecl, leavesDecl, ← leaves_walkFuncDecl]

theorem leaves_walkDecls (v : Visitor) (xs : List Decl) :
    leavesDecls <$> walkDecls v xs = visitLeaves v (leavesDecls xs) := by
  induction xs with
  | nil => simp [walkDecls, leavesDecls, visitLeaves]
  | cons x xs ih =>
    simp [walkDecls, leavesDecls, visitLeaves_append, ← leaves_walkDecl, ← ih]

theorem leaves_Inspect (v : Visitor) (file : File) :
    leavesFile <$> Inspect v file = visitLeaves v (leavesFile file) := by
  simp [Inspect, leavesFile, visitLeaves, ← leaves_walkDecls]

theorem Visit.bind_ok {α β : Type} (x : Visit α) (f : α → Visit β) (r : Reader) (b : β)
    (r2 : Reader) :
    (x >>= f) r = .ok (b, r2) ↔ ∃ a r1, x r = .ok (a, r1) ∧ f a r1 = .ok (b, r2) := by
  simp only [bind, StateT.bind, Except.bind]
  cases h : x r with
  | error e => simp
  | ok p =>
    obtain ⟨a, r1⟩ := p
    simp only [Except.ok.injEq, Prod.mk.injEq]
    constructor
    · intro hf; exact ⟨a, r1, ⟨rfl, rfl⟩, hf⟩
    · rintro ⟨_, _, ⟨rfl, rfl⟩, hf⟩; exact hf

theorem Visit.map_ok {α β : Type} (g : α → β) (x : Visit α) (r : Reader) (a : α) (r1 : Reader)
    (h : x r = .ok (a, r1)) : (g <$> x) r = .ok (g a, r1) := by
  simp [Functor.map, StateT.map, bind, Except.bind, h, pure, Except.pure]

theorem Visit.pure_ok {α : Type} (a b : α) (r r1 : Reader) :
    (pure a : Visit α) r = .ok (b, r1) ↔ a = b ∧ r = r1 := by
  simp [pure, StateT.pure, Except.pure]

theorem Inspect_leaves_ok (v : Visitor) (file file1 : File) (r r1 : Reader)
    (h : Inspect v file r = .ok (file1, r1)) :
    visitLeaves v (leavesFile file) r = .ok (leavesFile file1, r1) := by
  rw [← leaves_Inspect]
  exact Visit.map_ok _ _ _ _ _ h

/-! ### The name generator -/

theorem randIntLoop_lt (max k b : Nat) : ∀ (fuel : Nat) (r r1 : Reader) (n : Nat),
    randIntLoop max k b fuel r = (.ok n, r1) → n < max := by
  intro fuel
  induction fuel with
  | zero => intro r r1 n h; simp [randIntLoop] at h
  | succ fuel ih =>
    intro r r1 n h
    unfold randIntLoop at h
    split at h
    · simp at h
    · rename_i bytes r2 _
      simp only at h
      split_ifs at h with hlt
      · simp only [Prod.mk.injEq, Except.ok.injEq] at h
        rw [← h.1]; exact hlt
      · exact ih _ _ _ h

theorem randInt_lt (max : Nat) (hmax : 0 < max) (r r1 : Reader) (n : Nat)
    (h : randInt max r = (.ok n, r1)) : n < max := by
  unfold randInt at h
  simp only at h
  split_ifs at h with h0
  · simp only [Prod.mk.injEq, Except.ok.injEq] at h
    omega
  · exact randIntLoop_lt _ _ _ _ _ _ _ h
  · exact randIntLoop_lt _ _ _ _ _ _ _ h

theorem nameLoop_ok : ∀ (todo : Nat) (acc : List Char) (r r1 : Reader) (name : List Char),
    nameLoop todo acc r = .ok (name, r1) →
    ∃ added : List Char, name = acc ++ added ∧ added.length = todo ∧ ∀ c ∈ added, c ∈ chars.data := by
  intro todo
  induction todo with
  | zero =>
    intro acc r r1 name h
    simp only [nameLoop, Except.ok.injEq, Prod.mk.injEq] at h
    exact ⟨[], by simp [h.1], rfl, by simp⟩
  | succ todo ih =>
    intro acc r r1 name h
    unfold nameLoop at h
    split at h
    · simp at h
    · rename_i n r2 _
      split at h
      · simp at h
      · rename_i c hc
        obtain ⟨added, hname, hlen, hmem⟩ := ih _ _ _ _ h
        refine ⟨c :: added, by simp [hname], by simp [hlen], ?_⟩
        intro d hd
        rcases List.mem_cons.mp hd with rfl | hd
        · exact List.get?_mem hc
        · exact hmem d hd

theorem nameLoop_no_index_fault : ∀ (todo : Nat) (acc : List Char) (r : Reader),
    nameLoop todo acc r ≠ .error .indexOutOfRange := by
  intro todo
  induction todo with
  | zero => intro acc r; simp [nameLoop]
  | succ todo ih =>
    intro acc r
    unfold nameLoop
    split
    · simp
    · rename_i n r2 hn
      have hlt : n < chars.length := randInt_lt _ (by decide) _ _ _ hn
      split
      · rename_i hnone
        rw [List.get?_eq_none] at hnone
        exact absurd hlt (Nat.not_lt.mpr hnone)
      · exact ih _ _

theorem GenerateCrypticName_ok (r r1 : Reader) (name : String)
    (h : GenerateCrypticName r = .ok (name, r1)) : crypticShape name := by
  unfold GenerateCrypticName at h
  split at h
  · simp at h
  · rename_i nm r2 hloop
    simp only [Except.ok.injEq, Prod.mk.injEq] at h
    obtain ⟨added, hname, hlen, hmem⟩ := nameLoop_ok _ _ _ _ _ hloop
    refine ⟨added, ?_, hlen, hmem⟩
    rw [← h.1, hname]; rfl

/-! ### Renaming -/

theorem renameIdent_ok (L : Lib) (x x1 : Ident) (r r1 : Reader)
    (h : renameIdent L x r = .ok (x1, r1)) : renamed L (.ident x) (.ident x1) := by
  unfold renameIdent at h
  split_ifs at h with ht
  · split at h
    · simp at h
    · rename_i name r2 hg
      simp only [Except.ok.injEq, Prod.mk.injEq] at h
      obtain ⟨rfl, _⟩ := h
      exact ⟨rfl, by simp [ht], fun _ => GenerateCrypticName_ok _ _ _ hg⟩
  · simp only [Except.ok.injEq, Prod.mk.injEq] at h
    obtain ⟨rfl, _⟩ := h
    exact ⟨rfl, fun _ => rfl, by simp [ht]⟩

theorem visitLeaves_rename (L : Lib) : ∀ (ls ls1 : List Leaf) (r r1 : Reader),
    visitLeaves (renameVisitor L) ls r = .ok (ls1, r1) → List.Forall₂ (renamed L) ls ls1 := by
  intro ls
  induction ls with
  | nil =>
    intro ls1 r r1 h
    simp only [visitLeaves, Visit.pure_ok] at h
    rw [← h.1]; exact List.Forall₂.nil
  | cons x xs ih =>
    intro ls1 r r1 h
    cases x with
    | ident x =>
      simp only [visitLeaves, Visit.bind_ok, Visit.pure_ok] at h
      obtain ⟨x1, r2, hx, xs1, r3, hxs, rfl, _⟩ := h
      exact List.Forall₂.cons (renameIdent_ok L _ _ _ _ hx) (ih _ _ _ hxs)
    | lit x =>
      simp only [visitLeaves, Visit.bind_ok, Visit.pure_ok] at h
      obtain ⟨x1, r2, hx, xs1, r3, hxs, rfl, _⟩ := h
      have hx1 : x1 = x := by
        simp only [renameVisitor, Visit.pure_ok] at hx
        exact hx.1.symm
      subst hx1
      exact List.Forall₂.cons rfl (ih _ _ _ hxs)

theorem identsOfLeaves_forall₂ {R : Leaf → Leaf → Prop} {Q : Ident → Ident → Prop}
    (hR : ∀ a b, R a b → (∃ x y, a = .ident x ∧ b = .ident y ∧ Q x y) ∨ (∃ x y, a = .lit x ∧ b = .lit y))
    : ∀ (ls ls1 : List Leaf), List.Forall₂ R ls ls1 →
      List.Forall₂ Q (identsOfLeaves ls) (identsOfLeaves ls1) := by
  intro ls ls1 h
  induction h with
  | nil => exact List.Forall₂.nil
  | cons hab _ ih =>
    rcases hR _ _ hab with ⟨x, y, rfl, rfl, hq⟩ | ⟨x, y, rfl, rfl⟩
    · exact List.Forall₂.cons hq ih
    · exact ih

theorem litsOfLeaves_renamed (L : Lib) : ∀ (ls ls1 : List Leaf), List.Forall₂ (renamed L) ls ls1 →
    litsOfLeaves ls1 = litsOfLeaves ls := by
  intro ls ls1 h
  induction h with
  | nil => rfl
  | @cons a b _ _ hab _ ih =>
    cases a <;> cases b <;> simp only [renamed] at hab
    · simpa [litsOfLeaves] using ih
    · simp [litsOfLeaves, hab, ih]

theorem renamed_cases (L : Lib) (a b : Leaf) (h : renamed L a b) :
    (∃ x y, a = .ident x ∧ b = .ident y ∧ renamed L (.ident x) (.ident y)) ∨
      (∃ x y, a = .lit x ∧ b = .lit y) := by
  cases a <;> cases b <;> simp only [renamed] at h
  · exact Or.inl ⟨_, _, rfl, rfl, h⟩
  · exact Or.inr ⟨_, _, rfl, rfl⟩

theorem stepRename_active (L : Lib) (level : String) (file file1 : File) (r r1 : Reader)
    (ha : active .renaming level = true)
    (h : stepRename L level file r = .ok (file1, r1)) :
    List.Forall₂ (renamed L) (leavesFile file) (leavesFile file1) := by
  unfold stepRename at h
  rw [if_pos ha] at h
  exact visitLeaves_rename L _ _ _ _ (Inspect_leaves_ok _ _ _ _ _ h)

theorem stepRename_inactive (L : Lib) (level : String) (file file1 : File) (r r1 : Reader)
    (ha : active .renaming level = false)
    (h : stepRename L level file r = .ok (file1, r1)) : file1 = file ∧ r1 = r := by
  unfold stepRename at h
  rw [if_neg (by simp [ha]), Visit.pure_ok] at h
  exact ⟨h.1.symm, h.2.symm⟩

theorem forall₂_self {α : Type} {R : α → α → Prop} (hR : ∀ a, R a a) :
    ∀ l : List α, List.Forall₂ R l l
  | [] => List.Forall₂.nil
  | a :: l => List.Forall₂.cons (hR a) (forall₂_self hR l)

theorem renameTarget_false_iff (L : Lib) (x : Ident) :
    renameTarget L x = false ↔
      (IsExported L x = true ∨ x.Obj = none ∨ ∃ o, x.Obj = some o ∧ o.Kind ≠ ObjKind.Var) := by
  unfold renameTarget
  cases hx : x.Obj with
  | none => simp
  | some o => cases hE : IsExported L x <;> simp

theorem renameTarget_true_iff (L : Lib) (x : Ident) :
    renameTarget L x = true ↔
      (IsExported L x = false ∧ ∃ o, x.Obj = some o ∧ o.Kind = ObjKind.Var) := by
  unfold renameTarget
  cases hx : x.Obj with
  | none => simp
  | some o => cases hE : IsExported L x <;> simp

/-- C6: whatever the file, the level and the random source, step 1 leaves
every identifier node that is exported, or has no object, or whose object is
not of kind `Var` (a type, function, constant, package, label) exactly as it
was; every identifier keeps its object; a name differs afterwards only if
the identifier is non-exported and its object is of kind `Var`; and no
literal changes. -/
theorem rename_frame (L : Lib) (level : String) (file file1 : File) (r r1 : Reader)
    (h : stepRename L level file r = .ok (file1, r1)) :
    List.Forall₂ (fun old new : Ident =>
        new.Obj = old.Obj ∧
        ((IsExported L old = true ∨ old.Obj = none ∨
            ∃ o, old.Obj = some o ∧ o.Kind ≠ ObjKind.Var) → new = old) ∧
        (new.Name ≠ old.Name →
          IsExported L old = false ∧ ∃ o, old.Obj = some o ∧ o.Kind = ObjKind.Var))
      (identsOf file) (identsOf file1) ∧
    litsOf file1 = litsOf file := by
  cases ha : active .renaming level with
  | false =>
    obtain ⟨rfl, _⟩ := stepRename_inactive L level file file1 r r1 ha h
    exact ⟨forall₂_self (fun a => ⟨rfl, fun _ => rfl, fun hne => absurd rfl hne⟩) _, rfl⟩
  | true =>
    have hl := stepRename_active L level file file1 r r1 ha h
    refine ⟨?_, litsOfLeaves_renamed L _ _ hl⟩
    refine identsOfLeaves_forall₂ (R := renamed L) ?_ _ _ hl
    intro a b hab
    rcases renamed_cases L a b hab with ⟨x, y, rfl, rfl, hobj, hkeep, _⟩ | hlit
    · refine Or.inl ⟨x, y, rfl, rfl, hobj, ?_, ?_⟩
      · intro hx
        exact hkeep ((renameTarget_false_iff L x).mpr hx)
      · intro hne
        apply (renameTarget_true_iff L x).mp
        cases ht : renameTarget L x with
        | true => rfl
        | false => exact absurd (congrArg Ident.Name (hkeep ht)) hne
    · exact Or.inr hlit

/-- Witness for C6: the file `paramFile` at level light. -/
theorem rename_frame_witness :
    List.Forall₂ (fun old new : Ident =>
        new.Obj = old.Obj ∧
        ((IsExported demoLib old = true ∨ old.Obj = none ∨
            ∃ o, old.Obj = some o ∧ o.Kind ≠ ObjKind.Var) → new = old) ∧
        (new.Name ≠ old.Name →
          IsExported demoLib old = false ∧ ∃ o, old.Obj = some o ∧ o.Kind = ObjKind.Var))
      (identsOf paramFile) (identsOf paramFileRenamed) ∧
    litsOf paramFileRenamed = litsOf paramFile :=
  rename_frame demoLib "light" paramFile paramFileRenamed demoReader ((List.range 32).reverse) rfl

/-- Counterexample to C7: at level light the parameter `n` of `f` and the
package-level variable `counter` of `paramFile` are renamed. -/
theorem rename_hits_parameter :
    stepRename demoLib "light" paramFile demoReader =
      .ok (paramFileRenamed, (List.range 32).reverse) ∧
    paramNames paramFile = ["n"] ∧ paramNames paramFileRenamed = ["xqrstuvwxyzABCDEF"] ∧
    packageVarNames paramFile = ["counter"] ∧
    packageVarNames paramFileRenamed = ["xabcdefghijklmnop"] :=
  ⟨rfl, rfl, rfl, rfl, rfl⟩

/-- C7, amended: for every file and level, if step 1 changes the name of an
identifier then the identifier is non-exported and its object is of kind
`Var`. -/
theorem rename_targets_variables (L : Lib) (level : String) (file file1 : File) (r r1 : Reader)
    (h : stepRename L level file r = .ok (file1, r1)) :
    List.Forall₂ (fun old new : Ident =>
        new.Name ≠ old.Name →
          IsExported L old = false ∧ ∃ o, old.Obj = some o ∧ o.Kind = ObjKind.Var)
      (identsOf file) (identsOf file1) := by
  cases ha : active .renaming level with
  | false =>
    obtain ⟨rfl, _⟩ := stepRename_inactive L level file file1 r r1 ha h
    exact forall₂_self (fun a hne => absurd rfl hne) _
  | true =>
    have hl := stepRename_active L level file file1 r r1 ha h
    refine identsOfLeaves_forall₂ (R := renamed L) ?_ _ _ hl
    intro a b hab
    rcases renamed_cases L a b hab with ⟨x, y, rfl, rfl, _, hkeep, _⟩ | hlit
    · refine Or.inl ⟨x, y, rfl, rfl, ?_⟩
      intro hne
      apply (renameTarget_true_iff L x).mp
      cases ht : renameTarget L x with
      | true => rfl
      | false => exact absurd (congrArg Ident.Name (hkeep ht)) hne
    · exact Or.inr hlit

/-- Witness for the amended C7: the file `paramFile` at level light. -/
theorem rename_targets_variables_witness :
    List.Forall₂ (fun old new : Ident =>
        new.Name ≠ old.Name →
          IsExported demoLib old = false ∧ ∃ o, old.Obj = some o ∧ o.Kind = ObjKind.Var)
      (identsOf paramFile) (identsOf paramFileRenamed) :=
  rename_targets_variables demoLib "light" paramFile paramFileRenamed demoReader
    ((List.range 32).reverse) rfl

set_option maxRecDepth 100000 in
/-- C5, evaluated: at level light the declaration and the use of the local
variable `total` of `totalFile`, two identifier nodes with the same object,
get two different names. -/
theorem rename_splits_binding :
    (identsOf totalFile).map Ident.Obj = [none, some objF, some objTotal, some objTotal] ∧
    namesOf totalFile = ["p", "f", "total", "total"] ∧
    (printed (transformFile demoLib demoKey "light" totalFile demoReader)).map namesOf =
      some ["p", "f", "xabcdefghijklmnop", "xqrstuvwxyzABCDEF"] :=
  ⟨rfl, rfl, rfl⟩

/-! ### Execution of flattened bodies -/

/-- C2, evaluated: the body `x := 1; println(x)` prints 1, and its flattened
form is rejected (`x` is declared in the clause of case 0 and is not in
scope in the clause of case 1); the body `println(state); println(2)` under
an enclosing `state = 7` prints 7 and 2, and its flattened form prints 0
and 2. -/
theorem flatten_changes_behaviour :
    runBody 20 (some declUseBody) stateEnv =
      some (.normal, stateEnv, [{ callee := "println", args := [.int 1] }]) ∧
    outcomeOf (runBody 20 (flattened declUseBody) stateEnv) = some .failed ∧
    eventsOf (runBody 20 (flattened declUseBody) stateEnv) = some [] ∧
    runBody 20 (some stateUseBody) stateEnv =
      some (.normal, stateEnv, [{ callee := "println", args := [.int 7] },
        { callee := "println", args := [.int 2] }]) ∧
    runBody 20 (flattened stateUseBody) stateEnv =
      some (.normal, stateEnv, [{ callee := "println", args := [.int 0] },
        { callee := "println", args := [.int 2] }]) :=
  ⟨rfl, rfl, rfl, rfl, rfl⟩

/-! ### Literal encryption -/

/-- C3, evaluated: at level medium the literal `"a\""` of `litFile`, whose
content is the three bytes `a`, backslash, quote, is replaced by a call whose
argument decrypts to the two bytes `a`, backslash; and the raw literal with
content `raw` is replaced by a call whose argument decrypts to the content
with both backquotes. -/
theorem encrypt_trims_wrong_bytes :
    transformFile demoLib demoKey "medium" litFile demoReader =
      .ok (litFileMedium, (List.range 48).reverse) ∧
    valuesOf litFile = ["\"fmt\"", "\"a\\\"\"", "\x60raw\x60"] ∧
    (valuesOf litFileMedium).take 3 =
      ["decryptString(\"AAECAwQFBgcICQoLDA0OD2ducQ==\")",
       "decryptString(\"EBESExQVFhcYGRobHB0eH3BP\")",
       "decryptString(\"ICEiIyQlJicoKSorLC0uL0FRRFBJ\")"] ∧
    specDecrypt demoLib "EBESExQVFhcYGRobHB0eH3BP" demoKey = .ok [97, 92] ∧
    bytesOf "a\\\"" = [97, 92, 34] ∧
    specDecrypt demoLib "ICEiIyQlJicoKSorLC0uL0FRRFBJ" demoKey = .ok [96, 114, 97, 119, 96] ∧
    bytesOf "raw" = [114, 97, 119] :=
  ⟨rfl, rfl, rfl, rfl, rfl, rfl, rfl⟩

/-! ### The declaration list -/

theorem walkStmts_length (v : Visitor) :
    ∀ (l l1 : List Stmt) (r r1 : Reader), walkStmts v l r = .ok (l1, r1) → l1.length = l.length
  | [], l1, r, r1, h => by
    rw [walkStmts, Visit.pure_ok] at h
    rw [← h.1]
  | x :: xs, l1, r, r1, h => by
    rw [walkStmts, Visit.bind_ok] at h
    obtain ⟨x1, ra, _, h⟩ := h
    rw [Visit.bind_ok] at h
    obtain ⟨xs1, rb, hxs, h⟩ := h
    rw [Visit.pure_ok] at h
    rw [← h.1, List.length_cons, List.length_cons, walkStmts_length v xs xs1 ra rb hxs]

theorem walkDecl_size (v : Visitor) (d d1 : Decl) (r r1 : Reader)
    (h : walkDecl v d r = .ok (d1, r1)) : declSize d1 = declSize d := by
  cases d with
  | GenDecl g =>
    rw [walkDecl, Visit.bind_ok] at h
    obtain ⟨g1, ra, _, h⟩ := h
    rw [Visit.pure_ok] at h
    rw [← h.1]; rfl
  | FuncDecl fn =>
    rw [walkDecl, Visit.bind_ok] at h
    obtain ⟨fn1, ra, hfn, h⟩ := h
    rw [Visit.pure_ok] at h
    rw [← h.1]
    unfold walkFuncDecl at hfn
    rw [Visit.bind_ok] at hfn
    obtain ⟨_, _, _, hfn⟩ := hfn
    rw [Visit.bind_ok] at hfn
    obtain ⟨_, _, _, hfn⟩ := hfn
    rw [Visit.bind_ok] at hfn
    obtain ⟨_, _, _, hfn⟩ := hfn
    rw [Visit.bind_ok] at hfn
    obtain ⟨_, _, _, hfn⟩ := hfn
    rw [Visit.bind_ok] at hfn
    obtain ⟨body1, rb, hbody, hfn⟩ := hfn
    rw [Visit.pure_ok] at hfn
    rw [← hfn.1]
    simp only [declSize]
    cases hb : fn.Body with
    | none =>
      rw [hb, walkOptBody, Visit.pure_ok] at hbody
      rw [← hbody.1]
    | some lst =>
      rw [hb, walkOptBody, Visit.bind_ok] at hbody
      obtain ⟨lst1, rc, hl, hbody⟩ := hbody
      rw [Visit.pure_ok] at hbody
      rw [← hbody.1]
      simp [walkStmts_length v lst lst1 _ _ hl]

theorem walkDecls_size (v : Visitor) :
    ∀ (l l1 : List Decl) (r r1 : Reader), walkDecls v l r = .ok (l1, r1) →
      l1.map declSize = l.map declSize
  | [], l1, r, r1, h => by
    rw [walkDecls, Visit.pure_ok] at h
    rw [← h.1]
  | x :: xs, l1, r, r1, h => by
    rw [walkDecls, Visit.bind_ok] at h
    obtain ⟨x1, ra, hx, h⟩ := h
    rw [Visit.bind_ok] at h
    obtain ⟨xs1, rb, hxs, h⟩ := h
    rw [Visit.pure_ok] at h
    rw [← h.1, List.map_cons, List.map_cons, walkDecl_size v x x1 r ra hx,
      walkDecls_size v xs xs1 ra rb hxs]

theorem Inspect_size (v : Visitor) (file file1 : File) (r r1 : Reader)
    (h : Inspect v file r = .ok (file1, r1)) :
    file1.Decls.map declSize = file.Decls.map declSize := by
  unfold Inspect at h
  rw [Visit.bind_ok] at h
  obtain ⟨_, _, _, h⟩ := h
  rw [Visit.bind_ok] at h
  obtain ⟨decls1, rb, hd, h⟩ := h
  rw [Visit.pure_ok] at h
  rw [← h.1]
  exact walkDecls_size v _ _ _ _ hd

theorem stepRename_size (L : Lib) (level : String) (file file1 : File) (r r1 : Reader)
    (h : stepRename L level file r = .ok (file1, r1)) :
    file1.Decls.map declSize = file.Decls.map declSize := by
  unfold stepRename at h
  split at h
  · exact Inspect_size _ _ _ _ _ h
  · rw [Visit.pure_ok] at h
    rw [← h.1]

theorem stepEncrypt_active (L : Lib) (key : List Nat) (level : String) (file file2 : File)
    (r r2 : Reader) (ha : active .literalEncryption level = true)
    (h : stepEncrypt L key level file r = .ok (file2, r2)) :
    ∃ file1, Inspect (encryptVisitor L key) file r = .ok (file1, r2) ∧
      file2.Decls = file1.Decls ++ [.FuncDecl (decryptFunc key), .FuncDecl decryptAESFunc] := by
  unfold stepEncrypt at h
  rw [if_pos ha, Visit.bind_ok] at h
  obtain ⟨file1, ra, h1, h⟩ := h
  rw [Visit.pure_ok] at h
  refine ⟨file1, ?_, ?_⟩
  · rw [h1, h.2]
  · rw [← h.1]; simp

theorem stepEncrypt_inactive (L : Lib) (key : List Nat) (level : String) (file file2 : File)
    (r r2 : Reader) (ha : active .literalEncryption level = false)
    (h : stepEncrypt L key level file r = .ok (file2, r2)) : file2 = file ∧ r2 = r := by
  unfold stepEncrypt at h
  rw [if_neg (by simp [ha]), Visit.pure_ok] at h
  exact ⟨h.1.symm, h.2.symm⟩

theorem forFuncDecls_ok (g : FuncDecl → Except Fault FuncDecl) :
    ∀ (l l1 : List Decl), forFuncDecls g l = .ok l1 →
      l1 = l.map (applyTo g) ∧ ∀ fn, Decl.FuncDecl fn ∈ l → ∃ fn1, g fn = .ok fn1
  | [], l1, h => by
    rw [forFuncDecls] at h
    injection h with h
    subst h
    exact ⟨rfl, fun fn hfn => absurd hfn (List.not_mem_nil _)⟩
  | .GenDecl d :: rest, l1, h => by
    rw [forFuncDecls] at h
    cases hrest : forFuncDecls g rest with
    | error f => rw [hrest] at h; cases h
    | ok rest1 =>
      rw [hrest] at h
      injection h with h
      subst h
      obtain ⟨hmap, hall⟩ := forFuncDecls_ok g rest rest1 hrest
      refine ⟨by rw [List.map_cons, ← hmap]; rfl, ?_⟩
      intro fn hfn
      rcases List.mem_cons.mp hfn with h1 | h1
      · cases h1
      · exact hall fn h1
  | .FuncDecl fn0 :: rest, l1, h => by
    rw [forFuncDecls] at h
    cases hg : g fn0 with
    | error f => rw [hg] at h; cases h
    | ok fn1 =>
      rw [hg] at h
      cases hrest : forFuncDecls g rest with
      | error f => rw [hrest] at h; cases h
      | ok rest1 =>
        rw [hrest] at h
        injection h with h
        subst h
        obtain ⟨hmap, hall⟩ := forFuncDecls_ok g rest rest1 hrest
        refine ⟨by rw [List.map_cons, ← hmap]; simp [applyTo, hg], ?_⟩
        intro fn hfn
        rcases List.mem_cons.mp hfn with h1 | h1
        · injection h1 with h1
          subst h1
          exact ⟨fn1, hg⟩
        · exact hall fn h1

theorem liftFault_ok {α : Type} (x : Except Fault α) (a : α) (r r1 : Reader) :
    liftFault x r = .ok (a, r1) ↔ x = .ok a ∧ r1 = r := by
  unfold liftFault
  cases x with
  | error f => simp
  | ok b =>
    constructor
    · intro h
      injection h with h
      injection h with h1 h2
      exact ⟨by rw [h1], h2.symm⟩
    · rintro ⟨h1, h2⟩
      injection h1 with h1
      rw [h1, h2]

theorem stepFlatten_ok (level : String) (file file1 : File)
    (h : stepFlatten level file = .ok file1) :
    (active .flattening level = true →
      file1.Decls = file.Decls.map (applyTo flattenControlFlow) ∧
      ∀ fn, Decl.FuncDecl fn ∈ file.Decls → ∃ fn1, flattenControlFlow fn = .ok fn1) ∧
    (active .flattening level = false → file1 = file) := by
  unfold stepFlatten at h
  cases ha : active .flattening level with
  | false =>
    rw [ha] at h
    simp at h
    simp [h]
  | true =>
    rw [ha] at h
    simp only [if_true] at h
    cases hf : forFuncDecls flattenControlFlow file.Decls with
    | error f => rw [hf] at h; cases h
    | ok decls =>
      rw [hf] at h
      injection h with h
      subst h
      simpa using forFuncDecls_ok _ _ _ hf

theorem stepDeadCode_ok (level : String) (file file1 : File)
    (h : stepDeadCode level file = .ok file1) :
    (active .deadCode level = true →
      file1.Decls = file.Decls.map (applyTo injectDeadCode) ∧
      ∀ fn, Decl.FuncDecl fn ∈ file.Decls → ∃ fn1, injectDeadCode fn = .ok fn1) ∧
    (active .deadCode level = false → file1 = file) := by
  unfold stepDeadCode at h
  cases ha : active .deadCode level with
  | false =>
    rw [ha] at h
    simp at h
    simp [h]
  | true =>
    rw [ha] at h
    simp only [if_true] at h
    cases hf : forFuncDecls injectDeadCode file.Decls with
    | error f => rw [hf] at h; cases h
    | ok decls =>
      rw [hf] at h
      injection h with h
      subst h
      simpa using forFuncDecls_ok _ _ _ hf

theorem transformFile_ok (L : Lib) (key : List Nat) (level : String) (file file4 : File)
    (r r4 : Reader) (h : transformFile L key level file r = .ok (file4, r4)) :
    ∃ file1 file2 file3 r1,
      stepRename L level file r = .ok (file1, r1) ∧
      stepEncrypt L key level file1 r1 = .ok (file2, r4) ∧
      stepFlatten level file2 = .ok file3 ∧
      stepDeadCode level file3 = .ok file4 := by
  unfold transformFile at h
  rw [Visit.bind_ok] at h
  obtain ⟨file1, r1, h1, h⟩ := h
  rw [Visit.bind_ok] at h
  obtain ⟨file2, r2, h2, h⟩ := h
  rw [Visit.bind_ok] at h
  obtain ⟨file3, r3, h3, h⟩ := h
  rw [liftFault_ok] at h3 h
  obtain ⟨h3, rfl⟩ := h3
  obtain ⟨h4, rfl⟩ := h
  exact ⟨file1, file2, file3, r1, h1, h2, h3, h4⟩

theorem isFunc_of_size (l l1 : List Decl) (h : l1.map declSize = l.map declSize) :
    l1.map isFunc = l.map isFunc := by
  have hf : isFunc = Option.isSome ∘ declSize := funext (fun d => by cases d <;> rfl)
  rw [hf, ← List.map_map, ← List.map_map, h]

theorem isFunc_applyTo (g : FuncDecl → Except Fault FuncDecl) (l : List Decl) :
    (l.map (applyTo g)).map isFunc = l.map isFunc := by
  rw [List.map_map]
  congr 1
  funext d
  cases d with
  | GenDecl d => rfl
  | FuncDecl fn =>
    simp only [Function.comp, applyTo]
    cases g fn <;> rfl

theorem length_of_size (l l1 : List Decl) (h : l1.map declSize = l.map declSize) :
    l1.length = l.length := by
  have := congrArg List.length h
  simpa using this

/-- C10: when the transform of a file completes at level medium or heavy,
its declaration list is the list of the original declarations (as many, each
of its original kind) followed by exactly two function declarations named
`decryptString` and `decryptAES`, at medium exactly the two synthesized
declarations, however many string literals the file has; when it completes at
level none or light the list keeps its length and kinds. -/
theorem decls_grow_by_two (L : Lib) (key : List Nat) (level : String) (file file4 : File)
    (r r4 : Reader) (h : transformFile L key level file r = .ok (file4, r4)) :
    ((level = "medium" ∨ level = "heavy") →
      ∃ pre f g, file4.Decls = pre ++ [.FuncDecl f, .FuncDecl g] ∧
        pre.length = file.Decls.length ∧ pre.map isFunc = file.Decls.map isFunc ∧
        f.Name = NewIdent "decryptString" ∧ g.Name = NewIdent "decryptAES" ∧
        (level = "medium" → f = decryptFunc key ∧ g = decryptAESFunc)) ∧
    ((level = "none" ∨ level = "light") →
      file4.Decls.length = file.Decls.length ∧ file4.Decls.map isFunc = file.Decls.map isFunc) := by
  obtain ⟨file1, file2, file3, r1, h1, h2, h3, h4⟩ := transformFile_ok L key level file file4 r r4 h
  have hs1 := stepRename_size L level file file1 r r1 h1
  constructor
  · intro hl
    have ha : active .literalEncryption level = true := by
      rcases hl with rfl | rfl <;> rfl
    obtain ⟨file1e, hI, hd2⟩ := stepEncrypt_active L key level file1 file2 r1 r4 ha h2
    have hs2 := (Inspect_size _ _ _ _ _ hI).trans hs1
    rcases hl with rfl | rfl
    · have e3 := (stepFlatten_ok _ _ _ h3).2 rfl
      have e4 := (stepDeadCode_ok _ _ _ h4).2 rfl
      subst e3
      subst e4
      exact ⟨file1e.Decls, decryptFunc key, decryptAESFunc, hd2, length_of_size _ _ hs2,
        isFunc_of_size _ _ hs2, rfl, rfl, fun _ => ⟨rfl, rfl⟩⟩
    · have e3 := ((stepFlatten_ok _ _ _ h3).1 rfl).1
      have e4 := ((stepDeadCode_ok _ _ _ h4).1 rfl).1
      rw [e4, e3, hd2, List.map_append, List.map_append]
      refine ⟨_, _, _, rfl, ?_, ?_, rfl, rfl, fun hm => absurd hm (by decide)⟩
      · simpa using length_of_size _ _ hs2
      · rw [isFunc_applyTo, isFunc_applyTo]
        exact isFunc_of_size _ _ hs2
  · intro hl
    have ha : active .literalEncryption level = false := by
      rcases hl with rfl | rfl <;> rfl
    have hf : active .flattening level = false := by
      rcases hl with rfl | rfl <;> rfl
    have hd : active .deadCode level = false := by
      rcases hl with rfl | rfl <;> rfl
    obtain ⟨e2, _⟩ := stepEncrypt_inactive L key level file1 file2 r1 r4 ha h2
    have e3 := (stepFlatten_ok _ _ _ h3).2 hf
    have e4 := (stepDeadCode_ok _ _ _ h4).2 hd
    subst e4
    subst e3
    subst e2
    exact ⟨length_of_size _ _ hs1, isFunc_of_size _ _ hs1⟩

/-- Witness for C10: the file `litFile` at level medium. -/
theorem decls_grow_by_two_witness :
    ∃ pre f g, litFileMedium.Decls = pre ++ [.FuncDecl f, .FuncDecl g] ∧
      pre.length = litFile.Decls.length ∧ pre.map isFunc = litFile.Decls.map isFunc ∧
      f.Name = NewIdent "decryptString" ∧ g.Name = NewIdent "decryptAES" ∧
      ("medium" = "medium" → f = decryptFunc demoKey ∧ g = decryptAESFunc) :=
  (decls_grow_by_two demoLib demoKey "medium" litFile litFileMedium demoReader
    (List.range 48).reverse rfl).1 (Or.inl rfl)

/-! ### Dead-code injection and the heavy level -/

/-- C15: for a function declaration with a body, `injectDeadCode` returns
the declaration with the marker statement `fmt.Println("deadcode")` in front
of the original statements, which follow unchanged and in order; the list is
longer by exactly one. -/
theorem injectDeadCode_prepends (fn : FuncDecl) (stmts : List Stmt) (hb : fn.Body = some stmts) :
    injectDeadCode fn = .ok { fn with Body := some (deadCode :: stmts) } ∧
    (deadCode :: stmts).length = stmts.length + 1 ∧
    deadCode = .ExprStmt (.CallExpr (.Ident (NewIdent "fmt.Println"))
      [.BasicLit { Kind := .STRING, Value := "\"deadcode\"" }]) := by
  refine ⟨?_, rfl, rfl⟩
  unfold injectDeadCode
  rw [hb]
  rfl

/-- Witness for C15: the function `f` with the body of three calls. -/
theorem injectDeadCode_prepends_witness :
    injectDeadCode (funcOf threeBody) =
      .ok { funcOf threeBody with Body := some (deadCode :: threeBody) } ∧
    (deadCode :: threeBody).length = threeBody.length + 1 ∧
    deadCode = .ExprStmt (.CallExpr (.Ident (NewIdent "fmt.Println"))
      [.BasicLit { Kind := .STRING, Value := "\"deadcode\"" }]) :=
  injectDeadCode_prepends (funcOf threeBody) threeBody rfl

theorem heavy_applyTo (fn : FuncDecl) (stmts : List Stmt) (hb : fn.Body = some stmts)
    (hN : 1 ≤ stmts.length) :
    applyTo injectDeadCode (applyTo flattenControlFlow (.FuncDecl fn)) =
      .FuncDecl { fn with Body := some (heavyBody stmts) } := by
  have h0 : ¬ stmts.length = 0 := by omega
  simp [applyTo, flattenControlFlow, injectDeadCode, hb, h0, heavyBody]

/-- C16: when the transform of a file completes at level heavy, every
function declaration of the file whose body has N >= 1 top-level statements
ends with a body of exactly three statements: the marker, then the
definition `state := 0`, then the loop with condition `state < N` over a
switch with N case clauses, built from the N statements as steps 1 and 2
left them; the marker is outside the switch and N does not count it. -/
theorem heavy_body_shape (L : Lib) (key : List Nat) (file file4 : File) (r r4 : Reader)
    (h : transformFile L key "heavy" file r = .ok (file4, r4))
    (i : Nat) (fn : FuncDecl) (stmts : List Stmt)
    (hi : file.Decls[i]? = some (.FuncDecl fn)) (hb : fn.Body = some stmts)
    (hN : 1 ≤ stmts.length) :
    ∃ fn4 stmts2, file4.Decls[i]? = some (.FuncDecl fn4) ∧ stmts2.length = stmts.length ∧
      fn4.Body = some [deadCode,
        .AssignStmt [.Ident (NewIdent "state")] .DEFINE [.BasicLit { Kind := .INT, Value := "0" }],
        .ForStmt none
          (some (.BinaryExpr (.Ident (NewIdent "state")) .LSS
            (.BasicLit { Kind := .INT, Value := toString stmts.length })))
          none
          [.SwitchStmt none (some (.Ident (NewIdent "state"))) (buildCases 0 stmts2 [])]] ∧
      (buildCases 0 stmts2 []).length = stmts.length := by
  obtain ⟨file1, file2, file3, r1, h1, h2, h3, h4⟩ :=
    transformFile_ok L key "heavy" file file4 r r4 h
  have hs1 := stepRename_size L "heavy" file file1 r r1 h1
  obtain ⟨file1e, hI, hd2⟩ := stepEncrypt_active L key "heavy" file1 file2 r1 r4 rfl h2
  have hs2 := (Inspect_size _ _ _ _ _ hI).trans hs1
  have e3 := ((stepFlatten_ok _ _ _ h3).1 rfl).1
  have e4 := ((stepDeadCode_ok _ _ _ h4).1 rfl).1
  have hsz : (file1e.Decls.map declSize)[i]? = some (some (some stmts.length)) := by
    rw [hs2, List.getElem?_map, hi]
    simp [declSize, hb]
  rw [List.getElem?_map] at hsz
  cases hd : file1e.Decls[i]? with
  | none => rw [hd] at hsz; cases hsz
  | some d =>
    rw [hd] at hsz
    cases d with
    | GenDecl g => simp [declSize] at hsz
    | FuncDecl fn1 =>
      simp only [Option.map_some', declSize, Option.some.injEq] at hsz
      cases hb1 : fn1.Body with
      | none => rw [hb1] at hsz; cases hsz
      | some stmts2 =>
        rw [hb1] at hsz
        simp only [Option.map_some', Option.some.injEq] at hsz
        have hlt : i < file1e.Decls.length := by
          by_contra hge
          rw [List.getElem?_eq_none (by omega)] at hd
          cases hd
        refine ⟨{ fn1 with Body := some (heavyBody stmts2) }, stmts2, ?_, hsz, ?_, ?_⟩
        · rw [e4, e3, hd2, List.getElem?_map, List.getElem?_map,
            List.getElem?_append_left hlt, hd]
          simp only [Option.map_some']
          rw [heavy_applyTo fn1 stmts2 hb1 (by omega)]
        · simp only [heavyBody, hsz]
        · rw [buildCases_length]
          simpa using hsz

/-- Witness for C16: the file `threeFile`, whose function has three
statements. -/
theorem heavy_body_shape_witness :
    ∃ file4 r4, transformFile demoLib demoKey "heavy" threeFile demoReader = .ok (file4, r4) ∧
      ∃ fn4 stmts2, file4.Decls[0]? = some (.FuncDecl fn4) ∧ stmts2.length = threeBody.length ∧
        fn4.Body = some [deadCode,
          .AssignStmt [.Ident (NewIdent "state")] .DEFINE [.BasicLit { Kind := .INT, Value := "0" }],
          .ForStmt none
            (some (.BinaryExpr (.Ident (NewIdent "state")) .LSS
              (.BasicLit { Kind := .INT, Value := toString threeBody.length })))
            none
            [.SwitchStmt none (some (.Ident (NewIdent "state"))) (buildCases 0 stmts2 [])]] ∧
        (buildCases 0 stmts2 []).length = threeBody.length :=
  ⟨_, _, rfl, heavy_body_shape demoLib demoKey threeFile _ demoReader _ rfl 0 (funcOf threeBody)
    threeBody rfl rfl (by decide)⟩

/-- C19, evaluated: on the declaration `func g()` without a body both
`flattenControlFlow` and `injectDeadCode` dereference the nil body, and the
transform of a file with this declaration at level heavy ends in that panic;
a function with an empty body is returned unchanged by
`flattenControlFlow`. -/
theorem bodiless_declaration_faults :
    flattenControlFlow bodiless = .error .nilDereference ∧
    injectDeadCode bodiless = .error .nilDereference ∧
    transformFile demoLib demoKey "heavy" bodilessFile demoReader = .error .nilDereference ∧
    flattenControlFlow (funcOf []) = .ok (funcOf []) :=
  ⟨rfl, rfl, rfl, rfl⟩

/-! ### The shape of generated names -/

theorem randInt_accept (b : Nat) (rest : Reader) (hb : b % 64 < 63) :
    randInt chars.length (b :: rest) = (.ok (b % 64), rest) := by
  have hlen : chars.length = 63 := rfl
  have hbl : bitLen (63 - 1) = 6 := rfl
  have hmod : b % 256 % 64 = b % 64 := by omega
  simp [randInt, hlen, hbl, randIntLoop, ReadFull, SetBytes, hmod, hb]

theorem nameLoop_accept : ∀ (todo : Nat) (acc : List Char) (r : Reader),
    todo ≤ r.length → (∀ b ∈ r.take todo, b % 64 < 63) →
    ∃ added : List Char, nameLoop todo acc r = .ok (acc ++ added, r.drop todo) := by
  intro todo
  induction todo with
  | zero =>
    intro acc r _ _
    exact ⟨[], by simp [nameLoop]⟩
  | succ todo ih =>
    intro acc r hlen hgood
    cases r with
    | nil => simp at hlen
    | cons b rest =>
      have hb : b % 64 < 63 := hgood b (by simp)
      have hget : ∃ c, chars.data.get? (b % 64) = some c := by
        have hl : b % 64 < chars.data.length := by
          have : chars.data.length = 63 := rfl
          omega
        exact ⟨_, List.get?_eq_get hl⟩
      obtain ⟨c, hc⟩ := hget
      obtain ⟨added, hadd⟩ := ih (acc ++ [c]) rest (by simpa using hlen)
        (fun x hx => hgood x (by simp [List.take_succ_cons, hx]))
      refine ⟨c :: added, ?_⟩
      rw [nameLoop, randInt_accept b rest hb]
      simp only [hc, hadd]
      simp

theorem GenerateCrypticName_accept (r : Reader) (hlen : 16 ≤ r.length)
    (hgood : ∀ b ∈ r.take 16, b % 64 < 63) :
    ∃ name, GenerateCrypticName r = .ok (name, r.drop 16) := by
  obtain ⟨added, h⟩ := nameLoop_accept 16 [] r hlen hgood
  exact ⟨_, by rw [GenerateCrypticName, h]⟩

theorem chars_all_valid : chars.data.all (fun c => c.isAlphanum || c == '_') = true := rfl

theorem chars_valid : ∀ c ∈ chars.data, c.isAlphanum = true ∨ c = '_' := by
  intro c hc
  have h := List.all_eq_true.mp chars_all_valid c hc
  simpa using h

theorem crypticShape_length (name : String) (h : crypticShape name) :
    name.length = 17 ∧ name.data.head? = some 'x' ∧
      ∀ c ∈ name.data.tail, c.isAlphanum = true ∨ c = '_' := by
  obtain ⟨tail, rfl, hlen, hmem⟩ := h
  refine ⟨?_, rfl, ?_⟩
  · show ("x".data ++ tail).length = 17
    rw [List.length_append, hlen]
    rfl
  · intro c hc
    exact chars_valid c (hmem c hc)

/-- C13: whatever the random source delivers, a name returned by
`GenerateCrypticName` is `x` followed by 16 characters of the 63-character
alphabet, so it has length 17, starts with the letter `x` and continues with
letters, digits or underscores; no index into the alphabet is out of range;
the function returns a name whenever the next 16 bytes of the source are
accepted by the sampling; and every identifier whose name the renaming step
changes gets a name of this form. -/
theorem GenerateCrypticName_shape :
    (∀ (r r1 : Reader) (name : String), GenerateCrypticName r = .ok (name, r1) →
      crypticShape name ∧ name.length = 17 ∧ name.data.head? = some 'x' ∧
        ∀ c ∈ name.data.tail, c.isAlphanum = true ∨ c = '_') ∧
    (∀ r : Reader, GenerateCrypticName r ≠ .error .indexOutOfRange) ∧
    (∀ r : Reader, 16 ≤ r.length → (∀ b ∈ r.take 16, b % 64 < 63) →
      ∃ name, GenerateCrypticName r = .ok (name, r.drop 16)) ∧
    (∀ (L : Lib) (level : String) (file file1 : File) (r r1 : Reader),
      stepRename L level file r = .ok (file1, r1) →
      List.Forall₂ (fun old new : Ident => new.Name ≠ old.Name → crypticShape new.Name)
        (identsOf file) (identsOf file1)) := by
  refine ⟨?_, ?_, GenerateCrypticName_accept, ?_⟩
  · intro r r1 name h
    have hs := GenerateCrypticName_ok r r1 name h
    exact ⟨hs, crypticShape_length name hs⟩
  · intro r h
    unfold GenerateCrypticName at h
    split at h
    · rename_i f hloop
      injection h with h
      subst h
      exact nameLoop_no_index_fault _ _ _ hloop
    · cases h
  · intro L level file file1 r r1 h
    cases ha : active .renaming level with
    | false =>
      obtain ⟨rfl, _⟩ := stepRename_inactive L level file file1 r r1 ha h
      exact forall₂_self (fun a hne => absurd rfl hne) _
    | true =>
      have hl := stepRename_active L level file file1 r r1 ha h
      refine identsOfLeaves_forall₂ (R := renamed L) ?_ _ _ hl
      intro a b hab
      rcases renamed_cases L a b hab with ⟨x, y, rfl, rfl, _, hkeep, hnew⟩ | hlit
      · refine Or.inl ⟨x, y, rfl, rfl, ?_⟩
        intro hne
        cases ht : renameTarget L x with
        | true => exact hnew ht
        | false => exact absurd (congrArg Ident.Name (hkeep ht)) hne
      · exact Or.inr hlit

/-- Witness for C13: the name generated from `demoReader`, and the renaming
of `paramFile`. -/
theorem GenerateCrypticName_shape_witness :
    GenerateCrypticName demoReader = .ok ("xabcdefghijklmnop", demoReader.drop 16) ∧
    (crypticShape "xabcdefghijklmnop" ∧ "xabcdefghijklmnop".length = 17 ∧
      "xabcdefghijklmnop".data.head? = some 'x' ∧
      ∀ c ∈ "xabcdefghijklmnop".data.tail, c.isAlphanum = true ∨ c = '_') ∧
    List.Forall₂ (fun old new : Ident => new.Name ≠ old.Name → crypticShape new.Name)
      (identsOf paramFile) (identsOf paramFileRenamed) :=
  ⟨rfl, GenerateCrypticName_shape.1 demoReader (demoReader.drop 16) "xabcdefghijklmnop" rfl,
    GenerateCrypticName_shape.2.2.2 demoLib "light" paramFile paramFileRenamed demoReader
      ((List.range 32).reverse) rfl⟩

/-! ### Fresh IVs -/

theorem EncodeToString_injective (a b : List Nat) (ha : ∀ x ∈ a, x < 256)
    (hb : ∀ x ∈ b, x < 256) (h : EncodeToString a = EncodeToString b) : a = b := by
  have h1 := decodeChars_encodeChars a ha 0
  have h2 := decodeChars_encodeChars b hb 0
  have hc : encodeChars a = encodeChars b := by
    have := congrArg String.data h
    simpa [EncodeToString] using this
  rw [hc, h2] at h1
  injection h1 with h1
  exact h1.symm

theorem EncryptString_ok (L : Lib) (p : String) (key : List Nat) (r : Reader)
    (hkey : key.length = 16) (hr : 16 ≤ r.length) :
    ∃ ct : List Nat,
      EncryptString L p key r =
        (.ok (EncodeToString ((r.take 16).map (fun b => b % 256) ++ ct)), r.drop 16) ∧
      ∀ b ∈ (r.take 16).map (fun b => b % 256) ++ ct, b < 256 := by
  obtain ⟨block, hnc, hlen, hlt⟩ := NewCipher_ok L key hkey
  have hrf := ReadFull_ok 16 r hr
  have hivlt : ∀ b ∈ (r.take 16).map (fun b => b % 256), b < 256 := by
    intro b hb
    simp only [List.mem_map] at hb
    obtain ⟨x, _, rfl⟩ := hb
    exact Nat.mod_lt _ (by decide)
  generalize (r.take 16).map (fun b => b % 256) = iv at hrf hivlt ⊢
  refine ⟨XORKeyStream block false (bytesOf p).length iv (bytesOf p), ?_, ?_⟩
  · simp [EncryptString, hnc, BlockSize, hrf]
  · intro b hb
    rw [List.mem_append] at hb
    rcases hb with hb | hb
    · exact hivlt b hb
    · exact XORKeyStream_lt block hlt _ _ _ (bytesOf_lt p) b hb

/-- C14: for every plaintext and every 16-byte key, two calls of
`EncryptString` whose random sources deliver different 16-byte IVs both
return a text, and the two texts are different. -/
theorem EncryptString_distinct_iv (L : Lib) (p : String) (key : List Nat) (r1 r2 : Reader)
    (hkey : key.length = 16) (h1 : 16 ≤ r1.length) (h2 : 16 ≤ r2.length)
    (hiv : (r1.take 16).map (fun b => b % 256) ≠ (r2.take 16).map (fun b => b % 256)) :
    ∃ s1 s2, (EncryptString L p key r1).1 = .ok s1 ∧ (EncryptString L p key r2).1 = .ok s2 ∧
      s1 ≠ s2 := by
  obtain ⟨ct1, he1, hlt1⟩ := EncryptString_ok L p key r1 hkey h1
  obtain ⟨ct2, he2, hlt2⟩ := EncryptString_ok L p key r2 hkey h2
  refine ⟨_, _, by rw [he1], by rw [he2], ?_⟩
  intro heq
  have hbytes := EncodeToString_injective _ _ hlt1 hlt2 heq
  have hl : ((r1.take 16).map (fun b => b % 256)).length =
      ((r2.take 16).map (fun b => b % 256)).length := by
    simp
    omega
  exact hiv (List.append_inj hbytes hl).1

/-- Witness for C14: the plaintext `secret` encrypted twice in a row, with
the first and the second 16 bytes of `demoReader` as IVs. -/
theorem EncryptString_distinct_iv_witness :
    ∃ s1 s2, (EncryptString demoLib "secret" demoKey demoReader).1 = .ok s1 ∧
      (EncryptString demoLib "secret" demoKey (demoReader.drop 16)).1 = .ok s2 ∧ s1 ≠ s2 :=
  EncryptString_distinct_iv demoLib "secret" demoKey demoReader (demoReader.drop 16) rfl
    (by decide) (by decide) (by decide)

/-! ### The run key -/

theorem walkFn_output (L : Lib) (key : List Nat) (level : String) (e : WalkEntry)
    (r r1 : Reader) (err : Option Err) (p : String × File)
    (h : walkFn L key level e r = .ok ((err, some p), r1)) :
    ∃ file, e.parsed = .ok file ∧ p.1 = e.path ∧
      transformFile L key level file r = .ok (p.2, r1) := by
  unfold walkFn at h
  cases herr : e.err with
  | some x =>
    rw [herr] at h
    simp only at h
    rw [Visit.pure_ok] at h
    simp at h
  | none =>
    rw [herr] at h
    simp only at h
    by_cases hdir : (e.IsDir || Ext e.path != ".go") = true
    · rw [if_pos hdir, Visit.pure_ok] at h
      simp at h
    · rw [if_neg hdir] at h
      cases hparsed : e.parsed with
      | error x =>
        rw [hparsed] at h
        simp only at h
        rw [Visit.pure_ok] at h
        simp at h
      | ok file =>
        rw [hparsed] at h
        simp only at h
        rw [Visit.bind_ok] at h
        obtain ⟨file1, ra, ht, h⟩ := h
        cases hc : e.createErr with
        | some x =>
          rw [hc] at h
          simp only at h
          rw [Visit.pure_ok] at h
          simp at h
        | none =>
          rw [hc] at h
          simp only at h
          cases hp : e.printErr with
          | some x =>
            rw [hp] at h
            simp only at h
            rw [Visit.pure_ok] at h
            simp at h
          | none =>
            rw [hp] at h
            simp only at h
            rw [Visit.pure_ok] at h
            obtain ⟨h1, h2⟩ := h
            injection h1 with _ h1
            injection h1 with h1
            subst h1
            subst h2
            exact ⟨file, rfl, rfl, ht⟩

theorem Walk_outputs (L : Lib) (key : List Nat) (level : String) :
    ∀ (dir : List WalkEntry) (r r1 : Reader) (err : Option Err) (outs : List (String × File)),
      Walk L key level dir r = .ok ((err, outs), r1) →
      ∀ p ∈ outs, ∃ e ∈ dir, ∃ file ra rb, e.parsed = .ok file ∧ p.1 = e.path ∧
        transformFile L key level file ra = .ok (p.2, rb)
  | [], r, r1, err, outs, h => by
    rw [Walk, Visit.pure_ok] at h
    obtain ⟨h, _⟩ := h
    injection h with _ h
    subst h
    intro p hp
    cases hp
  | e :: rest, r, r1, err, outs, h => by
    rw [Walk, Visit.bind_ok] at h
    obtain ⟨⟨err1, out1⟩, ra, hfn, h⟩ := h
    have hhead : ∀ p, out1 = some p → ∃ file, e.parsed = .ok file ∧ p.1 = e.path ∧
        transformFile L key level file r = .ok (p.2, ra) := by
      intro p hp
      subst hp
      exact walkFn_output L key level e r ra err1 p hfn
    cases err1 with
    | some e1 =>
      simp only at h
      rw [Visit.pure_ok] at h
      obtain ⟨h, _⟩ := h
      injection h with _ h
      subst h
      intro p hp
      obtain ⟨file, h1, h2, h3⟩ := hhead p (by simpa using hp)
      exact ⟨e, List.mem_cons_self _ _, file, r, ra, h1, h2, h3⟩
    | none =>
      simp only at h
      rw [Visit.bind_ok] at h
      obtain ⟨⟨err2, outs2⟩, rb, hrest, h⟩ := h
      simp only at h
      rw [Visit.pure_ok] at h
      obtain ⟨h, _⟩ := h
      injection h with _ h
      subst h
      intro p hp
      rcases List.mem_append.mp hp with hp | hp
      · obtain ⟨file, h1, h2, h3⟩ := hhead p (by simpa using hp)
        exact ⟨e, List.mem_cons_self _ _, file, r, ra, h1, h2, h3⟩
      · obtain ⟨e2, he2, file, rc, rd, h1, h2, h3⟩ :=
          Walk_outputs L key level rest ra rb err2 outs2 hrest p hp
        exact ⟨e2, List.mem_cons_of_mem _ he2, file, rc, rd, h1, h2, h3⟩

theorem transformFile_key (L : Lib) (key : List Nat) (level : String) (file file4 : File)
    (r r4 : Reader) (hl : level = "medium" ∨ level = "heavy")
    (h : transformFile L key level file r = .ok (file4, r4)) :
    ∃ pre f g, file4.Decls = pre ++ [.FuncDecl f, .FuncDecl g] ∧
      f.Name = NewIdent "decryptString" ∧ keyLit key ∈ litsOfLeaves (leavesFuncDecl f) ∧
      (level = "medium" → f = decryptFunc key) := by
  obtain ⟨file1, file2, file3, r1, h1, h2, h3, h4⟩ := transformFile_ok L key level file file4 r r4 h
  have ha : active .literalEncryption level = true := by
    rcases hl with rfl | rfl <;> rfl
  obtain ⟨file1e, _, hd2⟩ := stepEncrypt_active L key level file1 file2 r1 r4 ha h2
  rcases hl with rfl | rfl
  · have e3 := (stepFlatten_ok _ _ _ h3).2 rfl
    have e4 := (stepDeadCode_ok _ _ _ h4).2 rfl
    subst e3
    subst e4
    refine ⟨file1e.Decls, decryptFunc key, decryptAESFunc, hd2, rfl, ?_, fun _ => rfl⟩
    have : litsOfLeaves (leavesFuncDecl (decryptFunc key)) = [keyLit key] := rfl
    rw [this]
    exact List.mem_singleton_self _
  · have e3 := ((stepFlatten_ok _ _ _ h3).1 rfl).1
    have e4 := ((stepDeadCode_ok _ _ _ h4).1 rfl).1
    have hf := heavy_applyTo (decryptFunc key) _ rfl (Nat.le_refl 1)
    rw [e4, e3, hd2, List.map_append, List.map_append]
    simp only [List.map_cons, List.map_nil, hf]
    refine ⟨_, _, _, rfl, rfl, ?_, fun hm => absurd hm (by decide)⟩
    show keyLit key ∈ [_, _, _, _, keyLit key]
    simp

theorem DecodeString_EncodeToString (bs : List Nat) (hb : ∀ b ∈ bs, b < 256) :
    DecodeString (EncodeToString bs) = .ok bs :=
  decodeChars_encodeChars bs hb 0

/-- C18: in a run of `TransformSource` at level medium or heavy whose random
source delivers the 16 key bytes, every file written is the transform of a
parsed file under that one key; its declaration list ends with the
declaration `decryptString` and one more, and `decryptString` holds, as a
literal that is not replaced, the quoted base64 text of the key, which
decodes to the key; at medium it is exactly the synthesized declaration. -/
theorem key_literal_shared (L : Lib) (dir : List WalkEntry) (level : String) (r r1 : Reader)
    (err : Option Err) (outs : List (String × File))
    (hl : level = "medium" ∨ level = "heavy") (hr : 16 ≤ r.length)
    (h : TransformSource L dir level r = .ok ((err, outs), r1)) :
    ∃ key, key = (r.take 16).map (fun b => b % 256) ∧ key.length = 16 ∧
      DecodeString (EncodeToString key) = .ok key ∧
      ∀ p ∈ outs, ∃ e ∈ dir, ∃ file ra rb, e.parsed = .ok file ∧ p.1 = e.path ∧
        transformFile L key level file ra = .ok (p.2, rb) ∧
        ∃ pre f g, p.2.Decls = pre ++ [.FuncDecl f, .FuncDecl g] ∧
          f.Name = NewIdent "decryptString" ∧
          keyLit key ∈ litsOfLeaves (leavesFuncDecl f) ∧
          (level = "medium" → f = decryptFunc key) := by
  unfold TransformSource at h
  rw [ReadFull_ok 16 r hr] at h
  simp only at h
  refine ⟨_, rfl, by simp; omega, ?_, ?_⟩
  · apply DecodeString_EncodeToString
    intro b hb
    simp only [List.mem_map] at hb
    obtain ⟨x, _, rfl⟩ := hb
    exact Nat.mod_lt _ (by decide)
  · intro p hp
    obtain ⟨e, he, file, ra, rb, h1, h2, h3⟩ := Walk_outputs L _ level dir _ _ err outs h p hp
    exact ⟨e, he, file, ra, rb, h1, h2, h3, transformFile_key L _ level file p.2 ra rb hl h3⟩

set_option maxRecDepth 100000 in
/-- Witness for C18: the directory `twoFiles` at level medium. -/
theorem key_literal_shared_witness :
    ∃ err outs r1, TransformSource demoLib twoFiles "medium" demoReader = .ok ((err, outs), r1) ∧
      outs.length = 2 ∧
      ∃ key, key = (demoReader.take 16).map (fun b => b % 256) ∧ key.length = 16 ∧
        DecodeString (EncodeToString key) = .ok key ∧
        ∀ p ∈ outs, ∃ e ∈ twoFiles, ∃ file ra rb, e.parsed = .ok file ∧ p.1 = e.path ∧
          transformFile demoLib key "medium" file ra = .ok (p.2, rb) ∧
          ∃ pre f g, p.2.Decls = pre ++ [.FuncDecl f, .FuncDecl g] ∧
            f.Name = NewIdent "decryptString" ∧
            keyLit key ∈ litsOfLeaves (leavesFuncDecl f) ∧
            ("medium" = "medium" → f = decryptFunc key) :=
  ⟨_, _, _, rfl, rfl, key_literal_shared demoLib twoFiles "medium" demoReader _ _ _ (Or.inl rfl)
    (by decide) rfl⟩

/-! ### Failures of the random source -/

set_option maxRecDepth 100000 in
/-- C11, evaluated: when the random source ends after the key, one IV and
three more bytes, `EncryptString` fails on the second and third literal of
`litFile`, and the run at level medium still returns no error and writes the
file with these two literals as they were. -/
theorem encrypt_failure_ignored :
    EncryptString demoLib "a\\" (List.range 16) [1, 2, 3] = (.error .ErrUnexpectedEOF, []) ∧
    written (TransformSource demoLib [goEntry "a.go" litFile] "medium"
        (List.range 16 ++ List.range 16 ++ [1, 2, 3])) =
      some (none, [("a.go", ["decryptString(\"AAECAwQFBgcICQoLDA0OD2ZvcA==\")", "\"a\\\"\"",
        "\x60raw\x60", "\"AAECAwQFBgcICQoLDA0ODw==\"", "0", "16", "16", "16"])]) :=
  ⟨rfl, rfl⟩

set_option maxRecDepth 100000 in
/-- C12, evaluated: when the random source ends inside a call of
`GenerateCrypticName`, the discarded error of `rand.Int` leaves a nil number
whose use panics: the call returns no name, and the run of `TransformSource`
at level light ends in the panic, not in a returned error. -/
theorem generator_failure_panics :
    GenerateCrypticName [1, 2, 3] = .error .nilDereference ∧
    TransformSource demoLib [goEntry "a.go" paramFile] "light" (List.range 16 ++ [1, 2, 3]) =
      .error .nilDereference :=
  ⟨rfl, rfl⟩

/-! ### Literals outside expressions -/

set_option maxRecDepth 100000 in
/-- C20, evaluated: at level medium the path literal of the import
declaration of `tagFile` and the tag literal of its struct field are both
replaced by calls of `decryptString`, and so is the import path of
`litFile`. -/
theorem import_path_encrypted :
    importPaths tagFile = ["\"fmt\""] ∧
    fieldTags tagFile = ["\x60json:\"a\"\x60"] ∧
    (printed (transformFile demoLib demoKey "medium" tagFile demoReader)).map importPaths =
      some ["decryptString(\"AAECAwQFBgcICQoLDA0OD2ducQ==\")"] ∧
    (printed (transformFile demoLib demoKey "medium" tagFile demoReader)).map fieldTags =
      some ["decryptString(\"EBESExQVFhcYGRobHB0eH3F5Znh3IT9+A0M=\")"] ∧
    importPaths litFileMedium = ["decryptString(\"AAECAwQFBgcICQoLDA0OD2ducQ==\")"] :=
  ⟨rfl, rfl, rfl, rfl, rfl⟩

/-! ### The `build` command -/

/-- C17: the action of the `build` command returns the error `invalid
obfuscation level` without any call on the file system exactly when the
level is not one of none, light, medium, heavy; for each of these four its
first call creates the staging directory and the error it returns, if any,
is another one; and the level of a command line without the option is
light. -/
theorem invalid_level_rejected (env : BuildEnv) (given : Option String) (verbose : Bool) :
    (buildAction env given verbose =
        (some (.Other ("invalid obfuscation level: " ++ levelFlag given)), []) ↔
      levelFlag given ∉ levels) ∧
    (levelFlag given ∈ levels → (buildAction env given verbose).2.head? = some .MkdirTemp) ∧
    (levelFlag given ∉ levels → (buildAction env given verbose).2 = []) ∧
    levelFlag none = "light" ∧ levelFlag none ∈ levels := by
  have hmem : levelFlag given ∈ levels ↔
      (levelFlag given = "none" ∨ levelFlag given = "light" ∨ levelFlag given = "medium" ∨
        levelFlag given = "heavy") := by
    simp [levels]
  have hvalid : levelFlag given ∈ levels →
      (buildAction env given verbose).2.head? = some .MkdirTemp := by
    intro hin
    unfold buildAction
    simp only
    rw [if_pos (hmem.mp hin)]
    cases env.mkdirTemp with
    | error e => rfl
    | ok tempDir =>
      simp only
      cases env.copyDir with
      | some e => cases verbose <;> rfl
      | none =>
        simp only [transformSourceLogged]
        cases env.transformSource with
        | some e => cases verbose <;> rfl
        | none =>
          simp only
          cases env.garble with
          | some e => cases verbose <;> rfl
          | none => cases verbose <;> rfl
  have hinvalid : levelFlag given ∉ levels →
      buildAction env given verbose =
        (some (.Other ("invalid obfuscation level: " ++ levelFlag given)), []) := by
    intro hout
    unfold buildAction
    simp only
    rw [if_neg (fun hc => hout (hmem.mpr hc))]
  refine ⟨⟨?_, hinvalid⟩, hvalid, ?_, rfl, by decide⟩
  · intro heq hin
    have := hvalid hin
    rw [heq] at this
    cases this
  · intro hout
    rw [hinvalid hout]

/-- Witness for C17: the level `extreme` is rejected before any call, and
the level `heavy` is not. -/
theorem invalid_level_rejected_witness :
    buildAction demoEnv (some "extreme") true =
      (some (.Other "invalid obfuscation level: extreme"), []) ∧
    (buildAction demoEnv (some "heavy") true).2.head? = some .MkdirTemp ∧
    (buildAction demoEnv none false).2.head? = some .MkdirTemp :=
  ⟨(invalid_level_rejected demoEnv (some "extreme") true).1.mpr (by decide),
    (invalid_level_rejected demoEnv (some "heavy") true).2.1 (by decide),
    (invalid_level_rejected demoEnv none false).2.1 (by decide)⟩

/-! ### The synthesized decryption -/

set_option maxRecDepth 100000 in
/-- C4, evaluated: at level medium the literal `"secret"` of `secretFile` is
replaced by a call of `decryptString` on a base64 text that decodes to the 16
bytes of the IV followed by six ciphertext bytes; the decryption that the
file receives for it is the two appended trees `decryptFunc` and
`decryptAESFunc`, in a file that still imports nothing; `decryptString`
passes the two-result call of `base64.StdEncoding.DecodeString` as the first
of two arguments; and `decryptAES` binds one name to that two-result call and
one to the two-result call of `aes.NewCipher`, passes `len - 16` (the
function `len`, not applied) as a length, and calls `XORKeyStream` as a
selection from the function `cipher.NewCFBDecrypter` with four arguments. -/
theorem decrypt_helper_malformed :
    (printed (transformFile demoLib demoKey "medium" secretFile demoReader)).map valuesOf =
      some ["decryptString(\"EBESExQVFhcYGRobHB0eH2J2dmV8bw==\")",
        "\"AQIDBAUGBwgJCgsMDQ4PEA==\"", "0", "16", "16", "16"] ∧
    DecodeString "EBESExQVFhcYGRobHB0eH2J2dmV8bw==" =
      .ok [16, 17, 18, 19, 20, 21, 22, 23, 24, 25, 26, 27, 28, 29, 30, 31, 98, 118, 118, 101, 124, 111] ∧
    (bytesOf "secret").length = 6 ∧
    (printed (transformFile demoLib demoKey "medium" secretFile demoReader)).map
        (fun file => file.Decls.drop 1) =
      some [.FuncDecl (decryptFunc demoKey), .FuncDecl decryptAESFunc] ∧
    (printed (transformFile demoLib demoKey "medium" secretFile demoReader)).map importPaths =
      some [] ∧
    bodyStmt (decryptFunc demoKey) 0 = some (.ReturnStmt [
      .CallExpr (.Ident (NewIdent "decryptAES")) [
        .CallExpr (.Ident (NewIdent "base64.StdEncoding.DecodeString")) [.Ident (NewIdent "s")],
        .BasicLit { Kind := .STRING, Value := "\"AQIDBAUGBwgJCgsMDQ4PEA==\"" }]]) ∧
    bodyStmt decryptAESFunc 0 = some (.AssignStmt [.Ident (NewIdent "key")] .DEFINE
      [.CallExpr (.Ident (NewIdent "base64.StdEncoding.DecodeString"))
        [.Ident (NewIdent "keyStr")]]) ∧
    bodyStmt decryptAESFunc 1 = some (.AssignStmt [.Ident (NewIdent "block")] .DEFINE
      [.CallExpr (.Ident (NewIdent "aes.NewCipher")) [.Ident (NewIdent "key")]]) ∧
    bodyStmt decryptAESFunc 3 = some (.AssignStmt [.Ident (NewIdent "plaintext")] .DEFINE
      [.CallExpr (.Ident (NewIdent "make")) [.Ident (NewIdent "[]byte"),
        .BinaryExpr (.Ident (NewIdent "len")) .SUB (.BasicLit { Kind := .INT, Value := "16" })]]) ∧
    bodyStmt decryptAESFunc 4 = some (.ExprStmt (.CallExpr
      (.SelectorExpr (.Ident (NewIdent "cipher.NewCFBDecrypter")) (NewIdent "XORKeyStream"))
      [.Ident (NewIdent "block"), .Ident (NewIdent "iv"), .Ident (NewIdent "plaintext"),
        .SliceExpr (.Ident (NewIdent "data")) (some (.BasicLit { Kind := .INT, Value := "16" }))
          none none])) :=
  ⟨rfl, rfl, rfl, rfl, rfl, rfl, rfl, rfl, rfl, rfl⟩

end Obfuscator
